import Mathlib

/-!
# Verification of the branching undo engine (`src/nvim/undo.c`)

This development gives a shallow embedding of the undo engine of `undo.c`:
the undo-tree data structures (`u_header_T`, `u_entry_T`, the per-buffer
fields `b_u_*`), the save protocol (`u_savecommon`, `u_save_buf`,
`u_getbot`), the replay routine (`u_undoredo`), the freeing routines
(`u_freeheader`, `u_freebranch`, `u_freeentries`) and the binary
persistence layer (`serialize_*`, `unserialize_*`, `u_write_undo`,
`u_read_undo`).

Modelling conventions:

* The header graph is represented as an arena: a list of
  `(address, node)` pairs, with the four graph links stored as optional
  addresses.  C pointer identity of entries inside a header's entry list
  (needed for `uh_getbot_entry`) is represented by a numeric `ue_id`
  attached to each entry.
* Lines are raw byte lists (C strings without their terminating NUL).
* Collaborators that live outside `undo.c` (the `LineStore` memline,
  cursor primitives, mark adjustment, the big-endian readers of
  `fileio.c`) are modelled from the specification; each such definition
  carries a doc comment starting with `Modelled from the spec:`.
* UI-only side effects (redraw, spell check, fold opening, autocommand
  dispatch, `changedtick` events) have no observable state in this model
  and are dropped; user-visible error messages are recorded as tags in a
  `msgs` field where a claim depends on them.
* `linenr_T`/`int` arithmetic is modelled on `Int` (no value in these
  computations approaches the 32-bit range in the modelled scenarios, so
  overflow is not modelled); byte-level encodings reduce values modulo
  `2 ^ (8 * width)` exactly where the writer casts.
-/

set_option maxHeartbeats 4000000
set_option maxRecDepth 100000

namespace NvimUndo

/-- A text line: the raw bytes of a C string (without the trailing NUL). -/
abbrev Line := List Nat

/-- `pos_T`: a (line, column, virtual-column-add) triple. -/
structure Pos where
  lnum : Int
  col : Int
  coladd : Int
deriving Repr, DecidableEq

/-- `visualinfo_T`: the saved Visual region. -/
structure VisualInfo where
  vi_start : Pos
  vi_end : Pos
  vi_mode : Int
  vi_curswant : Int
deriving Repr, DecidableEq

/-- `u_entry_T`: one contiguous line-range save.  `ue_id` stands for the C
pointer identity of the entry (used by `uh_getbot_entry`). -/
structure UEntry where
  ue_id : Nat
  ue_top : Int
  ue_bot : Int
  ue_lcount : Int
  ue_size : Int
  ue_array : List Line
deriving Repr, DecidableEq

/-- `ExtmarkUndoObject`: opaque extmark undo payload.  The engine only
stores these and (for splice/move) serializes their raw struct bytes. -/
inductive ExtmarkUndoObject where
  | splice (payload : List Nat)
  | move (payload : List Nat)
  | savePos (payload : List Nat)
deriving Repr, DecidableEq

/-- `u_header_T`: one undoable step.  The four graph links are optional
arena addresses. -/
structure UHeaderNode where
  uh_next : Option Nat
  uh_prev : Option Nat
  uh_alt_next : Option Nat
  uh_alt_prev : Option Nat
  uh_seq : Int
  uh_walk : Int
  uh_entry : List UEntry
  uh_getbot_entry : Option Nat
  uh_cursor : Pos
  uh_cursor_vcol : Int
  uh_flags : Nat
  uh_namedm : List Pos
  uh_visual : VisualInfo
  uh_time : Int
  uh_save_nr : Int
  uh_extmark : List ExtmarkUndoObject
deriving Repr, DecidableEq

/-- `UH_CHANGED`: buffer was changed before the change. -/
def UH_CHANGED : Nat := 1

/-- `UH_EMPTYBUF`: buffer was empty before the change. -/
def UH_EMPTYBUF : Nat := 2

/-- `UH_RELOAD`: the change was a buffer reload. -/
def UH_RELOAD : Nat := 4

/-- `NMARKS`: number of named marks `'a`..`'z`. -/
def NMARKS : Nat := 26

/-- `MAXLNUM` as used for the `newlnum` sentinel in `u_undoredo`. -/
def MAXLNUM : Int := 2147483647

/-- `NO_LOCAL_UNDOLEVEL`: sentinel for "buffer uses the global 'undolevels'". -/
def NO_LOCAL_UNDOLEVEL : Int := -123456

/-- `OK`/`FAIL` result of the save routines. -/
inductive UResult where
  | OK
  | FAIL
deriving Repr, DecidableEq

/-- The per-buffer undo state: the `b_u_*` fields of `buf_T` together with
the arena of headers and the collaborator state (`LineStore` contents,
cursor, marks, option and policy flags) that `undo.c` reads and writes. -/
structure UTreeState where
  heap : List (Nat × UHeaderNode)
  nextAddr : Nat
  nextEntryId : Nat
  b_u_oldhead : Option Nat
  b_u_newhead : Option Nat
  b_u_curhead : Option Nat
  b_u_numhead : Int
  b_u_seq_last : Int
  b_u_seq_cur : Int
  b_u_save_nr_last : Int
  b_u_save_nr_cur : Int
  b_u_time_cur : Int
  b_u_synced : Bool
  b_new_change : Bool
  b_u_line_ptr : Option Line
  b_u_line_lnum : Int
  b_u_line_colnr : Int
  lastmark : Int
  lines : List Line
  ml_empty : Bool
  changed : Bool
  namedm : List Pos
  visual : VisualInfo
  cursor : Pos
  virtualActive : Bool
  op_start : Pos
  op_end : Pos
  b_p_ul : Int
  p_ul : Int
  modifiable : Bool
  sandbox : Bool
  textlock : Bool
  gotInt : Bool
  timeNow : Int
  msgs : List String
deriving Repr, DecidableEq

/-- Arena lookup (dereference a `u_header_T *`). -/
def heapGet (h : List (Nat × UHeaderNode)) (a : Nat) : Option UHeaderNode :=
  match h.find? (fun p => p.1 = a) with
  | some p => some p.2
  | none => none

/-- Arena in-place update of the node at address `a`. -/
def heapSet (h : List (Nat × UHeaderNode)) (a : Nat) (n : UHeaderNode) :
    List (Nat × UHeaderNode) :=
  h.map (fun p => if p.1 = a then (a, n) else p)

/-- Arena update of the node at address `a` by a function. -/
def heapModify (h : List (Nat × UHeaderNode)) (a : Nat)
    (f : UHeaderNode → UHeaderNode) : List (Nat × UHeaderNode) :=
  h.map (fun p => if p.1 = a then (a, f p.2) else p)

/-- Arena removal (freeing a header's memory). -/
def heapRemove (h : List (Nat × UHeaderNode)) (a : Nat) :
    List (Nat × UHeaderNode) :=
  h.filter (fun p => p.1 ≠ a)

/-- Dereference an optional link and project its `uh_seq` (0 for null),
as `put_header_ptr` does. -/
def seqOf (h : List (Nat × UHeaderNode)) (a : Option Nat) : Int :=
  match a with
  | none => 0
  | some addr =>
    match heapGet h addr with
    | some n => n.uh_seq
    | none => 0

/-- Modelled from the spec: `LineStore.get` — read line `lnum` (1-based);
an out-of-range read yields the empty line. -/
def mlGet (L : List Line) (lnum : Int) : Line :=
  if 1 ≤ lnum ∧ lnum ≤ L.length then L.getD (lnum.toNat - 1) [] else []

/-- Modelled from the spec: `LineStore.delete` — delete line `lnum`; when
the last remaining line is deleted the buffer keeps one empty dummy line
(the `ML_EMPTY` situation described in `u_undoredo`'s deletion loop). -/
def mlDelete (L : List Line) (lnum : Int) : List Line :=
  if L.length ≤ 1 then [[]]
  else L.take (lnum.toNat - 1) ++ L.drop lnum.toNat

/-- Modelled from the spec: `LineStore.append` — insert a line after line
`lnum` (0 inserts before the first line). -/
def mlAppend (L : List Line) (lnum : Int) (s : Line) : List Line :=
  L.take lnum.toNat ++ [s] ++ L.drop lnum.toNat

/-- Modelled from the spec: `LineStore.replace` — replace line `lnum`. -/
def mlReplace (L : List Line) (lnum : Int) (s : Line) : List Line :=
  L.take (lnum.toNat - 1) ++ [s] ++ L.drop lnum.toNat

/-- `buf_is_empty`: one line that is empty. -/
def bufIsEmpty (L : List Line) : Bool :=
  L.length = 1 && (L.getD 0 []).isEmpty

/-- Modelled from the spec: the cursor collaborator `coladvance` moves the
cursor to the requested virtual column. -/
def coladvance (p : Pos) (vcol : Int) : Pos :=
  { p with col := vcol, coladd := 0 }

/-- Modelled from the spec: the cursor collaborator `beginline` puts the
cursor at the start of the line. -/
def beginline (p : Pos) : Pos :=
  { p with col := 0, coladd := 0 }

/-- Modelled from the spec: the cursor collaborator `check_cursor` clamps
the cursor onto an existing line and column. -/
def checkCursor (L : List Line) (p : Pos) : Pos :=
  let ln : Int := if p.lnum < 1 then 1
    else if p.lnum > L.length then (L.length : Int) else p.lnum
  let len : Int := (mlGet L ln).length
  let c : Int := if p.col < 0 then 0 else if p.col > len then len else p.col
  { lnum := ln, col := c, coladd := p.coladd }

/-- Modelled from the spec: the cursor collaborator `getviscol` returns
the current virtual column. -/
def getviscol (p : Pos) : Int := p.col + p.coladd

/-- Modelled from the spec: the mark collaborator `mark_adjust` — marks
inside the replaced range are cleared, marks below it are shifted by the
size delta. -/
def markAdjustPos (line1 line2 amountAfter : Int) (p : Pos) : Pos :=
  if line1 ≤ p.lnum ∧ p.lnum ≤ line2 then { p with lnum := 0 }
  else if p.lnum > line2 then { p with lnum := p.lnum + amountAfter }
  else p

/-- The zero position. -/
def posZero : Pos := { lnum := 0, col := 0, coladd := 0 }

/-- The `strcmp` scan in `u_undoredo`'s cursor logic: first index
`i < bound` at which `ue_array[i]` differs from buffer line
`top + 1 + i`; `bound` when all compared lines agree. -/
def firstDiffAux (arr : List Line) (L : List Line) (top : Int) :
    Nat → Nat → Nat
  | 0, i => i
  | k + 1, i =>
    if arr.getD i [] ≠ mlGet L (top + 1 + (i : Int)) then i
    else firstDiffAux arr L top k (i + 1)

/-- The deletion loop of `u_undoredo`: starting at line `lnum` and walking
upward, capture `k` lines with `u_save_line` and delete each with
`ml_delete`, remembering whether the buffer was down to its last line
before some delete (`empty_buffer`).  Returns the captured lines in index
order, the remaining buffer, and the `empty_buffer` flag. -/
def delLoop (L : List Line) : Nat → Int → List Line × List Line × Bool
  | 0, _ => ([], L, false)
  | k + 1, lnum =>
    let cap := mlGet L lnum
    let emp := L.length == 1
    let res := delLoop (mlDelete L lnum) k (lnum - 1)
    (res.1 ++ [cap], res.2.1, emp || res.2.2)

/-- The insertion loop of `u_undoredo`: insert `ue_array[i]` for
`i < size` after lines `top + i`; when the deletion loop emptied the
buffer and `lnum == 0`, the dummy line 1 is replaced instead. -/
def insLoop (emptyB : Bool) (arr : List Line) : Nat → Nat → Int → List Line → List Line
  | _, 0, _, L => L
  | i, k + 1, lnum, L =>
    let a := arr.getD i []
    let L' := if emptyB && lnum == 0 then mlReplace L 1 a else mlAppend L lnum a
    insLoop emptyB arr (i + 1) k (lnum + 1) L'

/-- State threaded through `u_undoredo`'s entry loop. -/
structure ULoopState where
  lines : List Line
  mlEmpty : Bool
  cursor : Pos
  namedm : List Pos
  op_start : Pos
  op_end : Pos
  newlnum : Int
  newlist : List UEntry
deriving Repr, DecidableEq

/-- The cursor-placement stage of a `u_undoredo` entry step, run before
the lines are swapped: move the cursor to the first changed line of the
entry nearest the top of the buffer. -/
def uStepCursor (uhCursor : Pos) (isLast : Bool) (uep : UEntry)
    (top oldsize newsize : Int) (s : ULoopState) : ULoopState :=
  if top < s.newlnum then
    if uhCursor.lnum ≥ top ∧ uhCursor.lnum ≤ top + newsize + 1 then
      { s with cursor := uhCursor, newlnum := uhCursor.lnum - 1 }
    else
      let i : Int :=
        (firstDiffAux uep.ue_array s.lines top (min newsize oldsize).toNat 0 : Int)
      if i = newsize ∧ s.newlnum = MAXLNUM ∧ isLast then
        { s with newlnum := top, cursor := { s.cursor with lnum := top + 1 } }
      else if i < newsize then
        { s with newlnum := top + i, cursor := { s.cursor with lnum := top + i + 1 } }
      else s
  else s

/-- The `mark_adjust` stage of a `u_undoredo` entry step: when the entry
changes the line count, shift the named marks and the pending operator
range past the replaced block. -/
def uStepMarks (top oldsize newsize : Int) (s1 : ULoopState) : ULoopState :=
  let delta := newsize - oldsize
  if oldsize ≠ newsize then
    { s1 with
      namedm := s1.namedm.map (markAdjustPos (top + 1) (top + oldsize) delta),
      op_start := if s1.op_start.lnum > top + oldsize then
          { s1.op_start with lnum := s1.op_start.lnum + delta } else s1.op_start,
      op_end := if s1.op_end.lnum > top + oldsize then
          { s1.op_end with lnum := s1.op_end.lnum + delta } else s1.op_end }
  else s1

/-- One entry step of `u_undoredo`: validate the range, place the
cursor, swap the buffer range against the entry contents, adjust marks
and the operator range, and prepend the swapped entry to `newlist`. -/
def uStep (uhCursor : Pos) (isLast : Bool) (uep : UEntry) (s : ULoopState) :
    Option ULoopState :=
  let count : Int := s.lines.length
  let top := uep.ue_top
  let bot := if uep.ue_bot = 0 then count + 1 else uep.ue_bot
  if top > count ∨ top ≥ bot ∨ bot > count + 1 then none
  else
    let oldsize := bot - top - 1
    let newsize := uep.ue_size
    let s1 := uStepCursor uhCursor isLast uep top oldsize newsize s
    let del := delLoop s1.lines oldsize.toNat (bot - 1)
    let newarray := del.1
    let emptyB := del.2.2
    let lines2 :=
      if newsize ≠ 0 then insLoop emptyB uep.ue_array 0 newsize.toNat top del.2.1
      else del.2.1
    let s2 := uStepMarks top oldsize newsize s1
    let opS := { s2.op_start with lnum := min s2.op_start.lnum (top + 1) }
    let opE :=
      if newsize = 0 ∧ top + 1 > s2.op_end.lnum then { s2.op_end with lnum := top + 1 }
      else if top + newsize > s2.op_end.lnum then { s2.op_end with lnum := top + newsize }
      else s2.op_end
    let uep' := { uep with
      ue_size := oldsize
      ue_array := newarray
      ue_bot := top + newsize + 1 }
    some { lines := lines2
           mlEmpty := s2.mlEmpty || emptyB
           cursor := s2.cursor
           namedm := s2.namedm
           op_start := opS
           op_end := opE
           newlnum := s2.newlnum
           newlist := uep' :: s2.newlist }

/-- The entry loop of `u_undoredo`: apply each entry in list order,
accumulating the swapped entries in reverse order (`newlist`).  The
second component is `false` when an entry failed validation, in which
case the state reached before the failing entry is returned. -/
def uLoop (uhCursor : Pos) : List UEntry → ULoopState → ULoopState × Bool
  | [], s => (s, true)
  | uep :: rest, s =>
    match uStep uhCursor rest.isEmpty uep s with
    | none => (s, false)
    | some s' => uLoop uhCursor rest s'

/-- The loop state at entry to `u_undoredo`'s entry loop: the buffer as
it stands, `b_op_start` initialised to the line count, `b_op_end` to 0,
and the `newlnum` sentinel at `MAXLNUM`. -/
def initLoopState (st : UTreeState) : ULoopState := {
  lines := st.lines
  mlEmpty := st.ml_empty
  cursor := st.cursor
  namedm := st.namedm
  op_start := { lnum := (st.lines.length : Int), col := 0, coladd := 0 }
  op_end := { lnum := 0, col := 0, coladd := 0 }
  newlnum := MAXLNUM
  newlist := [] }

/-- `u_undoredo`: apply the header at `b_u_curhead` against the buffer,
swapping entry contents with the buffer lines so the header becomes its
own inverse (`undo = true` goes up the tree, `false` goes down).  On a
failed entry validation the buffer keeps the partially applied lines, is
marked changed and an E438 message is recorded (the C code leaves the
entry list partially relinked on that path; this model leaves the header
unchanged there).  Extmark replay is delegated to the opaque
`ExtmarkStore` collaborator and does not touch the modelled state. -/
def u_undoredo (undo : Bool) (st : UTreeState) : UTreeState :=
  match st.b_u_curhead with
  | none => st
  | some ca =>
    match heapGet st.heap ca with
    | none => st
    | some curhead =>
      let old_flags := curhead.uh_flags
      let new_flags := (if st.changed then UH_CHANGED else 0) |||
        (if st.ml_empty then UH_EMPTYBUF else 0) ||| (old_flags &&& UH_RELOAD)
      let savedNamedm := st.namedm
      let savedVisual := st.visual
      let res := uLoop curhead.uh_cursor curhead.uh_entry (initLoopState st)
      let s := res.1
      if res.2 then
        let count1 : Int := (s.lines.length : Int)
        let opS := { s.op_start with lnum := min s.op_start.lnum count1 }
        let opE := { s.op_end with lnum := min s.op_end.lnum count1 }
        let newBufNamedm := (List.range NMARKS).map (fun i =>
          if (curhead.uh_namedm.getD i posZero).lnum ≠ 0 then
            curhead.uh_namedm.getD i posZero
          else s.namedm.getD i posZero)
        let newHdrNamedm := (List.range NMARKS).map (fun i =>
          if (savedNamedm.getD i posZero).lnum ≠ 0 then savedNamedm.getD i posZero
          else { (curhead.uh_namedm.getD i posZero) with lnum := 0 })
        let swapVisual := curhead.uh_visual.vi_start.lnum ≠ 0
        let bufVisual := if swapVisual then curhead.uh_visual else st.visual
        let hdrVisual := if swapVisual then savedVisual else curhead.uh_visual
        let cur1 :=
          if curhead.uh_cursor.lnum + 1 = s.cursor.lnum ∧ s.cursor.lnum > 1 then
            { s.cursor with lnum := s.cursor.lnum - 1 } else s.cursor
        let cur2 :=
          if cur1.lnum ≤ count1 then
            if curhead.uh_cursor.lnum = cur1.lnum then
              let c := { cur1 with col := curhead.uh_cursor.col }
              if st.virtualActive ∧ curhead.uh_cursor_vcol ≥ 0 then
                coladvance c curhead.uh_cursor_vcol
              else { c with coladd := 0 }
            else beginline cur1
          else { cur1 with col := 0, coladd := 0 }
        let cur3 := checkCursor s.lines cur2
        let mlE := if old_flags &&& UH_EMPTYBUF ≠ 0 ∧ bufIsEmpty s.lines then
            true else s.mlEmpty
        let seqCur :=
          if undo then
            (match curhead.uh_next with
             | some na =>
               (match heapGet st.heap na with
                | some nn => nn.uh_seq
                | none => 0)
             | none => 0)
          else curhead.uh_seq
        let saveNrCur :=
          if curhead.uh_save_nr ≠ 0 then
            (if undo then curhead.uh_save_nr - 1 else curhead.uh_save_nr)
          else st.b_u_save_nr_cur
        let curhead' := { curhead with
          uh_entry := s.newlist
          uh_flags := new_flags
          uh_namedm := newHdrNamedm
          uh_visual := hdrVisual }
        { st with
          heap := heapSet st.heap ca curhead'
          lines := s.lines
          ml_empty := mlE
          changed := (old_flags &&& UH_CHANGED) != 0
          namedm := newBufNamedm
          visual := bufVisual
          cursor := cur3
          op_start := opS
          op_end := opE
          b_u_seq_cur := seqCur
          b_u_save_nr_cur := saveNrCur
          b_u_time_cur := curhead.uh_time }
      else
        { st with
          lines := s.lines
          ml_empty := s.mlEmpty
          cursor := s.cursor
          namedm := s.namedm
          op_start := s.op_start
          op_end := s.op_end
          changed := true
          msgs := st.msgs ++ ["E438"] }

/-- `get_undolevel`: the effective 'undolevels' value for the buffer. -/
def get_undolevel (st : UTreeState) : Int :=
  if st.b_p_ul = NO_LOCAL_UNDOLEVEL then st.p_ul else st.b_p_ul

/-- `undo_allowed`: changes are allowed (buffer modifiable, not in the
sandbox, no text lock; `expr_map_locked` is folded into the textlock
flag). -/
def undo_allowed (st : UTreeState) : Bool :=
  st.modifiable && !st.sandbox && !st.textlock

/-- `u_freeentries`: free all entries of one header and the header
itself; clears `b_u_curhead`/`b_u_newhead`/the tracked pointer when they
refer to it and decrements `b_u_numhead`. -/
def u_freeentries (st : UTreeState) (a : Nat) (uhpp : Option Nat) :
    UTreeState × Option Nat :=
  let st := { st with
    b_u_curhead := if st.b_u_curhead = some a then none else st.b_u_curhead
    b_u_newhead := if st.b_u_newhead = some a then none else st.b_u_newhead }
  let uhpp := if uhpp = some a then none else uhpp
  ({ st with heap := heapRemove st.heap a, b_u_numhead := st.b_u_numhead - 1 },
   uhpp)

/-- The pointer-update loop in `u_freeheader`: walk the `uh_alt_next`
chain starting at `a`, pointing each node's `uh_next` at `nx`. -/
def altChainSetNext (fuel : Nat) (st : UTreeState) (a : Nat) (nx : Option Nat) :
    UTreeState :=
  match fuel with
  | 0 => st
  | fuel + 1 =>
    match heapGet st.heap a with
    | none => st
    | some n =>
      let st := { st with
        heap := heapModify st.heap a (fun m => { m with uh_next := nx }) }
      match n.uh_alt_next with
      | some b => altChainSetNext fuel st b nx
      | none => st

mutual

/-- `u_freeheader`: free one header and its entry list, freeing its
alternate-redo branch first, and repair the spine and head pointers.
`fuel` bounds the pointer walks (any in-memory tree is finite). -/
def u_freeheader (fuel : Nat) (st : UTreeState) (a : Nat) (uhpp : Option Nat) :
    UTreeState × Option Nat :=
  match fuel with
  | 0 => (st, uhpp)
  | fuel + 1 =>
    match heapGet st.heap a with
    | none => (st, uhpp)
    | some n0 =>
      let r :=
        match n0.uh_alt_next with
        | some b => u_freebranch fuel st b uhpp
        | none => (st, uhpp)
      let st := r.1
      let uhpp := r.2
      match heapGet st.heap a with
      | none => (st, uhpp)
      | some n =>
        let st :=
          match n.uh_alt_prev with
          | some p => { st with heap := heapModify st.heap p (fun m => { m with uh_alt_next := none }) }
          | none => st
        let st :=
          match n.uh_next with
          | none => { st with b_u_oldhead := n.uh_prev }
          | some nx => { st with heap := heapModify st.heap nx (fun m => { m with uh_prev := n.uh_prev }) }
        let st :=
          match n.uh_prev with
          | none => { st with b_u_newhead := n.uh_next }
          | some pv => altChainSetNext (st.heap.length + 1) st pv n.uh_next
        u_freeentries st a uhpp

/-- `u_freebranch`: free an alternate branch and any following alternate
branches; when the branch is the top of the tree everything is unwound
through `u_freeheader` so that the spine pointers stay consistent. -/
def u_freebranch (fuel : Nat) (st : UTreeState) (a : Nat) (uhpp : Option Nat) :
    UTreeState × Option Nat :=
  match fuel with
  | 0 => (st, uhpp)
  | fuel + 1 =>
    if st.b_u_oldhead = some a then
      freeAllFromOldhead fuel st uhpp
    else
      let st :=
        match heapGet st.heap a with
        | some n =>
          match n.uh_alt_prev with
          | some p => { st with heap := heapModify st.heap p (fun m => { m with uh_alt_next := none }) }
          | none => st
        | none => st
      freebranchLoop fuel st (some a) uhpp

/-- The `while (b_u_oldhead != NULL)` unwinding inside `u_freebranch`. -/
def freeAllFromOldhead (fuel : Nat) (st : UTreeState) (uhpp : Option Nat) :
    UTreeState × Option Nat :=
  match fuel with
  | 0 => (st, uhpp)
  | fuel + 1 =>
    match st.b_u_oldhead with
    | none => (st, uhpp)
    | some oh =>
      let r := u_freeheader fuel st oh uhpp
      freeAllFromOldhead fuel r.1 r.2

/-- The `while (next != NULL)` loop of `u_freebranch`: free the `uh_prev`
chain, recursing into each node's alternate branches first. -/
def freebranchLoop (fuel : Nat) (st : UTreeState) (next : Option Nat)
    (uhpp : Option Nat) : UTreeState × Option Nat :=
  match fuel with
  | 0 => (st, uhpp)
  | fuel + 1 =>
    match next with
    | none => (st, uhpp)
    | some tofree =>
      let r :=
        match heapGet st.heap tofree with
        | some n =>
          match n.uh_alt_next with
          | some b => u_freebranch fuel st b uhpp
          | none => (st, uhpp)
        | none => (st, uhpp)
      let st := r.1
      let uhpp := r.2
      let nxt :=
        match heapGet st.heap tofree with
        | some n => n.uh_prev
        | none => none
      let r2 := u_freeentries st tofree uhpp
      freebranchLoop fuel r2.1 nxt r2.2

end

/-- `u_get_headentry`: the most recently added entry of `b_u_newhead`, or
`none` when the undo list is corrupt (the E439 case). -/
def u_get_headentry (st : UTreeState) : Option UEntry :=
  match st.b_u_newhead with
  | none => none
  | some nh =>
    match heapGet st.heap nh with
    | none => none
    | some n =>
      match n.uh_entry with
      | [] => none
      | e :: _ => some e

/-- `u_getbot`: compute `ue_bot` of the entry registered in
`uh_getbot_entry` from the line-count delta since its save
(`top + size + 1 + (current count - lcount)`); out-of-range results are
reported (E440) and fall back to `top + 1`.  Clears `uh_getbot_entry`
and marks the tree synced. -/
def u_getbot (st : UTreeState) : UTreeState :=
  match u_get_headentry st with
  | none => st
  | some _ =>
    match st.b_u_newhead with
    | none => st
    | some nh =>
      match heapGet st.heap nh with
      | none => st
      | some n =>
        match n.uh_getbot_entry with
        | none => { st with b_u_synced := true }
        | some gid =>
          match n.uh_entry.find? (fun e => e.ue_id = gid) with
          | none =>
            { st with
              heap := heapModify st.heap nh (fun m => { m with uh_getbot_entry := none })
              b_u_synced := true }
          | some e =>
            let extra := (st.lines.length : Int) - e.ue_lcount
            let newbot := e.ue_top + e.ue_size + 1 + extra
            let bad := newbot < 1 ∨ newbot > (st.lines.length : Int)
            let bot' := if bad then e.ue_top + 1 else newbot
            let st := if bad then { st with msgs := st.msgs ++ ["E440"] } else st
            { st with
              heap := heapModify st.heap nh (fun m => { m with
                uh_entry := m.uh_entry.map (fun e2 =>
                  if e2.ue_id = gid then { e2 with ue_bot := bot' } else e2)
                uh_getbot_entry := none })
              b_u_synced := true }

/-- `u_sync(force = true)`: close the current entry list (`no_u_sync` is
bypassed by forced syncs and is not modelled). -/
def u_sync_force (st : UTreeState) : UTreeState :=
  if st.b_u_synced then st
  else if get_undolevel st < 0 then { st with b_u_synced := true }
  else { (u_getbot st) with b_u_curhead := none }

/-- The `while (uhfree->uh_alt_next.ptr != NULL)` walk of the trim loop:
the end of the alternate list starting at `a`. -/
def chaseAltEnd (fuel : Nat) (st : UTreeState) (a : Nat) : Nat :=
  match fuel with
  | 0 => a
  | fuel + 1 =>
    match heapGet st.heap a with
    | none => a
    | some n =>
      match n.uh_alt_next with
      | none => a
      | some b => chaseAltEnd fuel st b

/-- The trim loop of `u_savecommon`: free headers at `b_u_oldhead` while
`b_u_numhead` exceeds 'undolevels', tracking the detached `old_curhead`
pointer which is cleared when its target is freed. -/
def trimLoop (fuel : Nat) (st : UTreeState) (oldCurhead : Option Nat) :
    UTreeState × Option Nat :=
  match fuel with
  | 0 => (st, oldCurhead)
  | fuel + 1 =>
    if st.b_u_numhead > get_undolevel st ∧ st.b_u_oldhead ≠ none then
      match st.b_u_oldhead with
      | none => (st, oldCurhead)
      | some uhfree =>
        let r :=
          if some uhfree = oldCurhead then
            u_freebranch (st.heap.length + 1) st uhfree oldCurhead
          else
            match heapGet st.heap uhfree with
            | none => (st, oldCurhead)
            | some n =>
              if n.uh_alt_next = none then
                u_freeheader (st.heap.length + 1) st uhfree oldCurhead
              else
                u_freebranch (st.heap.length + 1) st
                  (chaseAltEnd (st.heap.length + 1) st uhfree) oldCurhead
        trimLoop fuel r.1 r.2
    else (st, oldCurhead)

/-- Move the entry with id `eid` to the front of header `nh`'s entry list
(the reuse step of coalescing). -/
def moveEntryToFront (st : UTreeState) (nh : Nat) (eid : Nat) : UTreeState :=
  { st with heap := heapModify st.heap nh (fun m =>
      match m.uh_entry.find? (fun e => e.ue_id = eid) with
      | none => m
      | some e => { m with
          uh_entry := e :: m.uh_entry.filter (fun e2 => e2.ue_id ≠ eid) }) }

/-- The `ue_bot` bookkeeping on the reused entry after coalescing. -/
def coalesceFinish (st : UTreeState) (nh : Nat) (eid : Nat)
    (bot newbot : Int) : UTreeState :=
  let count : Int := st.lines.length
  if newbot ≠ 0 then
    { st with heap := heapModify st.heap nh (fun m => { m with
        uh_entry := m.uh_entry.map (fun e =>
          if e.ue_id = eid then { e with ue_bot := newbot } else e) }) }
  else if bot > count then
    { st with heap := heapModify st.heap nh (fun m => { m with
        uh_entry := m.uh_entry.map (fun e =>
          if e.ue_id = eid then { e with ue_bot := 0 } else e) }) }
  else
    { st with heap := heapModify st.heap nh (fun m => { m with
        uh_entry := m.uh_entry.map (fun e =>
          if e.ue_id = eid then { e with ue_lcount := count } else e)
        uh_getbot_entry := some eid }) }

/-- The line-count-drift abort condition of the coalescing scan: the
entry's recorded range no longer matches the buffer (for the pending
`uh_getbot_entry` the remembered line count is compared instead). -/
def scanDrift (count : Int) (getbotId : Option Nat) (uep : UEntry) : Prop :=
  if getbotId ≠ some uep.ue_id then
    uep.ue_top + uep.ue_size + 1 ≠
      (if uep.ue_bot = 0 then count + 1 else uep.ue_bot)
  else uep.ue_lcount ≠ count

instance (count : Int) (getbotId : Option Nat) (uep : UEntry) :
    Decidable (scanDrift count getbotId uep) := by
  unfold scanDrift; infer_instance

/-- The multi-line-overlap abort condition of the coalescing scan: the
entry is a multi-line save that includes the line being saved. -/
def scanOverlap (top : Int) (uep : UEntry) : Prop :=
  uep.ue_size > 1 ∧ top ≥ uep.ue_top ∧ top + 2 ≤ uep.ue_top + uep.ue_size + 1

instance (top : Int) (uep : UEntry) : Decidable (scanOverlap top uep) := by
  unfold scanOverlap; infer_instance

/-- The coalescing scan of `u_savecommon`: walk at most the 10 most
recent entries of `b_u_newhead`; abort on line-count drift or a
multi-line entry overlapping the saved line; reuse an entry with the
same `top` and size 1.  Returns the updated state when an entry was
reused, `none` when the scan fell through. -/
def coalesceScan (st : UTreeState) (nh : Nat) (getbotId : Option Nat)
    (top bot newbot : Int) : Nat → List UEntry → Option UTreeState
  | _, [] => none
  | i, uep :: rest =>
    if 10 ≤ i then none
    else
      if scanDrift (st.lines.length : Int) getbotId uep ∨ scanOverlap top uep then
        none
      else if uep.ue_size = 1 ∧ uep.ue_top = top then
        let st1 :=
          if 0 < i then
            moveEntryToFront { (u_getbot st) with b_u_synced := false } nh uep.ue_id
          else st
        some (coalesceFinish st1 nh uep.ue_id bot newbot)
      else coalesceScan st nh getbotId top bot newbot (i + 1) rest

/-- The entry-capture tail of `u_savecommon`: allocate the new entry,
record its range (registering `uh_getbot_entry` when `ue_bot` must be
computed later), capture the saved lines honoring `got_int`
cancellation, push the entry onto `b_u_newhead`'s list, set the reload
flag and mark the tree unsynced. -/
def saveEntryCommon (st : UTreeState) (nh : Nat) (top bot newbot size : Int)
    (reload : Bool) : UResult × UTreeState :=
  let eid := st.nextEntryId
  let st := { st with nextEntryId := st.nextEntryId + 1 }
  let count : Int := st.lines.length
  let spec : Int × Int × Bool :=
    if newbot ≠ 0 then (newbot, 0, false)
    else if bot > count then (0, 0, false)
    else (0, count, true)
  let st :=
    if spec.2.2 then
      { st with heap := heapModify st.heap nh (fun m => { m with uh_getbot_entry := some eid }) }
    else st
  if st.gotInt ∧ size > 0 then (UResult.FAIL, st)
  else
    let arr :=
      if size > 0 then
        (List.range size.toNat).map (fun i => mlGet st.lines (top + 1 + (i : Int)))
      else []
    let uep : UEntry := { ue_id := eid, ue_top := top, ue_bot := spec.1,
                          ue_lcount := spec.2.1, ue_size := size, ue_array := arr }
    let st := { st with heap := heapModify st.heap nh (fun m => { m with uh_entry := uep :: m.uh_entry }) }
    let st :=
      if reload then
        { st with heap := heapModify st.heap nh (fun m => { m with uh_flags := m.uh_flags ||| UH_RELOAD }) }
      else st
    (UResult.OK, { st with b_u_synced := false })

/-- The branch-detach step of `u_savecommon`: when the user undid more
than they redid, remember `b_u_curhead` as the alternate branch to
splice, point `b_u_newhead` above it and clear `b_u_curhead`. -/
def detachCurhead (st : UTreeState) : UTreeState :=
  match st.b_u_curhead with
  | some oc =>
    { st with
      b_u_newhead :=
        (match heapGet st.heap oc with
         | some n => n.uh_next
         | none => none)
      b_u_curhead := none }
  | none => st

/-- Build and link the new header of `u_savecommon`: splice against the
detached `old_curhead`, point the previous newest header's `uh_prev` at
the new header, assign the next sequence number, snapshot cursor, flags,
named marks and Visual region, and install the header as `b_u_newhead`
(and as `b_u_oldhead` when the tree was empty). -/
def linkNewHeader (st : UTreeState) (old_curhead : Option Nat)
    (newaddr : Nat) : UTreeState :=
  let hdr0 : UHeaderNode := {
    uh_next := st.b_u_newhead
    uh_prev := none
    uh_alt_next := old_curhead
    uh_alt_prev :=
      (match old_curhead with
       | some oc =>
         (match heapGet st.heap oc with
          | some n => n.uh_alt_prev
          | none => none)
       | none => none)
    uh_seq := st.b_u_seq_last + 1
    uh_walk := 0
    uh_entry := []
    uh_getbot_entry := none
    uh_cursor := st.cursor
    uh_cursor_vcol :=
      if st.virtualActive ∧ st.cursor.coladd > 0 then getviscol st.cursor
      else -1
    uh_flags := (if st.changed then UH_CHANGED else 0) +
      (if st.ml_empty then UH_EMPTYBUF else 0)
    uh_namedm := st.namedm
    uh_visual := st.visual
    uh_time := st.timeNow
    uh_save_nr := 0
    uh_extmark := [] }
  let st :=
    match old_curhead with
    | some oc =>
      let st :=
        match hdr0.uh_alt_prev with
        | some ap => { st with heap := heapModify st.heap ap (fun m => { m with uh_alt_next := some newaddr }) }
        | none => st
      let st := { st with heap := heapModify st.heap oc (fun m => { m with uh_alt_prev := some newaddr }) }
      if st.b_u_oldhead = some oc then { st with b_u_oldhead := some newaddr }
      else st
    | none => st
  { st with
    heap := st.heap ++ [(newaddr, hdr0)]
    b_u_seq_last := st.b_u_seq_last + 1
    b_u_seq_cur := st.b_u_seq_last + 1
    b_u_time_cur := st.timeNow + 1
    b_u_newhead := some newaddr
    b_u_oldhead := if st.b_u_oldhead = none then some newaddr
      else st.b_u_oldhead
    b_u_numhead := st.b_u_numhead + 1 }

/-- The synced branch of `u_savecommon`: allocate a header (when undo is
enabled), detach the redo branch, trim to 'undolevels', then link the
new header and capture the entry. -/
def u_savecommon_synced (st0 : UTreeState) (top bot newbot size : Int)
    (reload : Bool) : UResult × UTreeState :=
  let st := { st0 with b_new_change := true }
  let mkHeader := get_undolevel st ≥ 0
  let newaddr := st.nextAddr
  let st := if mkHeader then { st with nextAddr := st.nextAddr + 1 } else st
  let old_curhead := st.b_u_curhead
  let st := detachCurhead st
  let tl := trimLoop (st.heap.length + 1) st old_curhead
  if ¬ mkHeader then
    let st :=
      match tl.2 with
      | some oc => (u_freebranch (tl.1.heap.length + 1) tl.1 oc none).1
      | none => tl.1
    (UResult.OK, { st with b_u_synced := false })
  else
    saveEntryCommon (linkNewHeader tl.1 tl.2 newaddr) newaddr top bot newbot
      size reload

/-- The unsynced branch of `u_savecommon`: no-op with undo disabled,
otherwise try to coalesce a single-line save, else resolve the pending
`ue_bot` and capture a fresh entry. -/
def u_savecommon_unsynced (st : UTreeState) (top bot newbot size : Int)
    (reload : Bool) : UResult × UTreeState :=
  if get_undolevel st < 0 then (UResult.OK, st)
  else
    let scanned : Option UTreeState :=
      if size = 1 then
        (match st.b_u_newhead with
         | some nh =>
           (match heapGet st.heap nh with
            | some n => coalesceScan st nh n.uh_getbot_entry top bot newbot 0
                n.uh_entry
            | none => none)
         | none => none)
      else none
    match scanned with
    | some st1 => (UResult.OK, st1)
    | none =>
      let st := u_getbot st
      match st.b_u_newhead with
      | none => (UResult.FAIL, { st with msgs := st.msgs ++ ["null-deref"] })
      | some nh => saveEntryCommon st nh top bot newbot size reload

/-- `u_savecommon`: common code for saving text before a change.
`change_warning` autocommand dispatch and the message text of the policy
failures are side-effect-only and dropped; the E881 message is recorded.
Returns the `OK`/`FAIL` result with the new state. -/
def u_savecommon (st : UTreeState) (top bot newbot : Int) (reload : Bool) :
    UResult × UTreeState :=
  if ¬ reload ∧ ¬ undo_allowed st then (UResult.FAIL, st)
  else if ¬ reload ∧ bot > (st.lines.length : Int) + 1 then
    (UResult.FAIL, { st with msgs := st.msgs ++ ["E881"] })
  else
    let size := bot - top - 1
    if st.b_u_synced then u_savecommon_synced st top bot newbot size reload
    else u_savecommon_unsynced st top bot newbot size reload

/-- `u_saveline`: remember line `lnum` for the "U" command. -/
def u_saveline (st : UTreeState) (lnum : Int) : UTreeState :=
  if lnum = st.b_u_line_lnum then st
  else if lnum < 1 ∨ lnum > (st.lines.length : Int) then st
  else
    { st with
      b_u_line_lnum := lnum
      b_u_line_colnr := if st.cursor.lnum = lnum then st.cursor.col else 0
      b_u_line_ptr := some (mlGet st.lines lnum) }

/-- `u_save_buf`: save the lines between `top` and `bot`; `FAIL` when the
range is invalid, otherwise record the single line for "U" when
applicable and fall through to `u_savecommon`. -/
def u_save_buf (st : UTreeState) (top bot : Int) : UResult × UTreeState :=
  if top ≥ bot ∨ bot > (st.lines.length : Int) + 1 then (UResult.FAIL, st)
  else
    let st := if top + 2 = bot then u_saveline st (top + 1) else st
    u_savecommon st top bot 0 false


/-! ## The lines-level view of `u_undoredo` (for the replay round trip) -/

/-- The window `ue_array[i..i+k)` as read by the insertion loop (missing
entries read as the empty line, matching `getD` in `insLoop`). -/
def winArr (arr : List Line) (i k : Nat) : List Line :=
  (List.range k).map (fun j => arr.getD (i + j) [])

/-- The lines-and-entry core of one `u_undoredo` entry step: the range
validation, the deletion loop and the insertion loop, restricted to the
`LineStore` and the swapped entry (the cursor, mark and op bookkeeping
of `uStep` does not touch the lines). -/
def uStepLines (uep : UEntry) (L : List Line) : Option (UEntry × List Line) :=
  let count : Int := L.length
  let top := uep.ue_top
  let bot := if uep.ue_bot = 0 then count + 1 else uep.ue_bot
  if top > count ∨ top ≥ bot ∨ bot > count + 1 then none
  else
    let oldsize := bot - top - 1
    let newsize := uep.ue_size
    let del := delLoop L oldsize.toNat (bot - 1)
    let lines2 :=
      if newsize ≠ 0 then insLoop del.2.2 uep.ue_array 0 newsize.toNat top del.2.1
      else del.2.1
    some ({ uep with
            ue_size := oldsize
            ue_array := del.1
            ue_bot := top + newsize + 1 }, lines2)

/-- `u_undoredo`'s entry loop at the lines level, in processing order. -/
def uApplyLines : List UEntry → List Line → Option (List UEntry × List Line)
  | [], L => some ([], L)
  | e :: rest, L =>
    match uStepLines e L with
    | none => none
    | some r =>
      match uApplyLines rest r.2 with
      | none => none
      | some r2 => some (r.1 :: r2.1, r2.2)

/-- Validity of one replay step together with the conditions that make
it reversible: a nonnegative range inside a nonempty buffer, a
nonnegative size, and not the irreversible corner in which the step
deletes every line of the buffer while inserting none (leaving only the
dummy empty line behind). -/
def stepOk (uep : UEntry) (L : List Line) : Prop :=
  let count : Int := L.length
  let bot := if uep.ue_bot = 0 then count + 1 else uep.ue_bot
  0 ≤ uep.ue_top ∧ uep.ue_top < bot ∧ bot ≤ count + 1 ∧
  0 ≤ uep.ue_size ∧ 1 ≤ count ∧
  ¬(bot - uep.ue_top - 1 = count ∧ uep.ue_size = 0)

instance (uep : UEntry) (L : List Line) : Decidable (stepOk uep L) := by
  unfold stepOk
  infer_instance

/-- Every step of a header replay is valid and reversible. -/
def applyOkLines : List UEntry → List Line → Bool
  | [], _ => true
  | e :: rest, L =>
    decide (stepOk e L) &&
      (match uStepLines e L with
       | some r => applyOkLines rest r.2
       | none => false)



/-! ## Undo file serialization

The byte-level undo file format (`serialize_*`, `unserialize_*`,
`u_write_undo`, `u_read_undo`).  A file is a list of byte values.  The
low-level integer readers (`get2c`, `get4c`, `get8ctime`, `getc`) live
outside this repository; they are modelled from the spec: all integers
are big-endian, read as two's-complement of their width, and reading at
end of file yields `-1` with the remaining input consumed. -/

/-- The contents of an undo file: a list of bytes. -/
abbrev Bytes := List Nat

/-- `UF_START_MAGIC`: the 9 bytes of `"Vim\237UnDo\345"`. -/
def UF_START_MAGIC : Bytes := [86, 105, 109, 159, 85, 110, 68, 111, 229]

/-- `UF_VERSION`: the 2-byte undofile version number. -/
def UF_VERSION : Nat := 3

/-- `UF_HEADER_MAGIC`: magic at the start of each serialized header. -/
def UF_HEADER_MAGIC : Nat := 0x5fd0

/-- `UF_HEADER_END_MAGIC`: magic after the last header. -/
def UF_HEADER_END_MAGIC : Nat := 0xe7aa

/-- `UF_ENTRY_MAGIC`: magic at the start of each serialized entry. -/
def UF_ENTRY_MAGIC : Nat := 0xf518

/-- `UF_ENTRY_END_MAGIC`: magic after the last entry. -/
def UF_ENTRY_END_MAGIC : Nat := 0x3581

/-- `UF_LAST_SAVE_NR`: optional-field tag in the file header. -/
def UF_LAST_SAVE_NR : Nat := 1

/-- `UHP_SAVE_NR`: optional-field tag in a serialized header. -/
def UHP_SAVE_NR : Nat := 1

/-- `UNDO_HASH_SIZE`: size of the SHA-256 buffer hash. -/
def UNDO_HASH_SIZE : Nat := 32

/-- Modelled from the spec: `kExtmarkSplice` discriminant value. -/
def kExtmarkSplice : Nat := 1

/-- Modelled from the spec: `kExtmarkMove` discriminant value. -/
def kExtmarkMove : Nat := 2

/-- Modelled from the spec: the fixed size of a raw `ExtmarkSplice`
payload. -/
def ExtmarkSplice_size : Nat := 8

/-- Modelled from the spec: the fixed size of a raw `ExtmarkMove`
payload. -/
def ExtmarkMove_size : Nat := 12

/-- Big-endian digits of `n` in `len` bytes (most significant first). -/
def beBytes : Nat → Nat → Bytes
  | 0, _ => []
  | len + 1, n => (n / 2 ^ (8 * len)) % 256 :: beBytes len n

/-- `undo_write_bytes`: writes a number, most significant byte first, in
`len` bytes; the value is taken modulo `2 ^ (8 * len)` (the C shifts an
`uintmax_t`). -/
def undo_write_bytes (nr : Int) (len : Nat) : Bytes :=
  beBytes len (nr % (2 ^ (8 * len) : Nat)).toNat

/-- Modelled from the spec: accumulate `len` big-endian bytes; `none` at
end of file. -/
def getNc : Nat → Bytes → Nat → Option (Nat × Bytes)
  | 0, bs, acc => some (acc, bs)
  | _ + 1, [], _ => none
  | len + 1, b :: bs, acc => getNc len bs (acc * 256 + b % 256)

/-- Modelled from the spec: `get2c` — two big-endian bytes, `-1` at end
of file. -/
def get2c (bs : Bytes) : Int × Bytes :=
  match getNc 2 bs 0 with
  | none => (-1, [])
  | some (n, rest) => ((n : Int), rest)

/-- Modelled from the spec: `get4c` — four big-endian bytes read as a
signed 32-bit value, `-1` at end of file. -/
def get4c (bs : Bytes) : Int × Bytes :=
  match getNc 4 bs 0 with
  | none => (-1, [])
  | some (n, rest) =>
    (if n < 2 ^ 31 then (n : Int) else (n : Int) - 2 ^ 32, rest)

/-- Modelled from the spec: `get8ctime` — eight big-endian bytes read as
a signed 64-bit value, `-1` at end of file. -/
def get8ctime (bs : Bytes) : Int × Bytes :=
  match getNc 8 bs 0 with
  | none => (-1, [])
  | some (n, rest) =>
    (if n < 2 ^ 63 then (n : Int) else (n : Int) - 2 ^ 64, rest)

/-- `undo_read_byte`: one byte, `-1` at end of file. -/
def undo_read_byte (bs : Bytes) : Int × Bytes :=
  match bs with
  | [] => (-1, [])
  | b :: rest => ((b % 256 : Nat), rest)

/-- `undo_read`: `size` raw bytes, failing (and consuming nothing
usable) when the file is too short. -/
def undo_read (size : Nat) (bs : Bytes) : Option (List Nat × Bytes) :=
  if size ≤ bs.length then some (bs.take size, bs.drop size) else none

/-- `undo_read_string`: a length-`len` string (line). -/
def undo_read_string (len : Nat) (bs : Bytes) : Option (Line × Bytes) :=
  undo_read len bs

/-- The sequence number a link pointer is serialized as (0 for null). -/
def linkSeq (heap : List (Nat × UHeaderNode)) (p : Option Nat) : Int :=
  match p with
  | none => 0
  | some a =>
    match heapGet heap a with
    | some n => n.uh_seq
    | none => 0

/-- `put_header_ptr`: write a header pointer as its sequence number. -/
def put_header_ptr (heap : List (Nat × UHeaderNode)) (p : Option Nat) :
    Bytes :=
  undo_write_bytes (linkSeq heap p) 4

/-- `serialize_pos`. -/
def serialize_pos (p : Pos) : Bytes :=
  undo_write_bytes p.lnum 4 ++ undo_write_bytes p.col 4 ++
    undo_write_bytes p.coladd 4

/-- `unserialize_pos`: read a position, clamping each coordinate to be
nonnegative. -/
def unserialize_pos (bs : Bytes) : Pos × Bytes :=
  let r1 := get4c bs
  let r2 := get4c r1.2
  let r3 := get4c r2.2
  ({ lnum := max r1.1 0, col := max r2.1 0, coladd := max r3.1 0 }, r3.2)

/-- `serialize_visualinfo`. -/
def serialize_visualinfo (v : VisualInfo) : Bytes :=
  serialize_pos v.vi_start ++ serialize_pos v.vi_end ++
    undo_write_bytes v.vi_mode 4 ++ undo_write_bytes v.vi_curswant 4

/-- `unserialize_visualinfo`. -/
def unserialize_visualinfo (bs : Bytes) : VisualInfo × Bytes :=
  let r1 := unserialize_pos bs
  let r2 := unserialize_pos r1.2
  let r3 := get4c r2.2
  let r4 := get4c r3.2
  ({ vi_start := r1.1, vi_end := r2.1, vi_mode := r3.1,
     vi_curswant := r4.1 }, r4.2)

/-- `serialize_uep`: the four range fields followed by `ue_size`
length-prefixed lines (the C iterates `ue_size` times over
`ue_array`). -/
def serialize_uep (uep : UEntry) : Bytes :=
  undo_write_bytes uep.ue_top 4 ++ undo_write_bytes uep.ue_bot 4 ++
    undo_write_bytes uep.ue_lcount 4 ++ undo_write_bytes uep.ue_size 4 ++
    (((List.range uep.ue_size.toNat).map (fun i =>
      let l := uep.ue_array.getD i []
      undo_write_bytes (l.length : Int) 4 ++ l)).flatten)

/-- The `ue_size` line reads of `unserialize_uep`. -/
def readUepLines : Nat → Bytes → Option (List Line × Bytes)
  | 0, bs => some ([], bs)
  | n + 1, bs =>
    let r := get4c bs
    if r.1 < 0 then none
    else
      match undo_read_string r.1.toNat r.2 with
      | none => none
      | some (line, bs2) =>
        match readUepLines n bs2 with
        | none => none
        | some (ls, bs3) => some (line :: ls, bs3)

/-- `unserialize_uep`: an entry read back from the file (a fresh entry:
its arena id is 0). -/
def unserialize_uep (bs : Bytes) : Option (UEntry × Bytes) :=
  let r1 := get4c bs
  let r2 := get4c r1.2
  let r3 := get4c r2.2
  let r4 := get4c r3.2
  match readUepLines r4.1.toNat r4.2 with
  | none => none
  | some (ls, bs5) =>
    some ({ ue_id := 0, ue_top := r1.1, ue_bot := r2.1, ue_lcount := r3.1,
            ue_size := r4.1, ue_array := ls }, bs5)

/-- `serialize_extmark`: splice and move objects as magic, kind and raw
payload; `ExtmarkSavePos` objects are not serialized. -/
def serialize_extmark (e : ExtmarkUndoObject) : Bytes :=
  match e with
  | .splice p =>
    undo_write_bytes (UF_ENTRY_MAGIC : Int) 2 ++
      undo_write_bytes (kExtmarkSplice : Int) 4 ++ p
  | .move p =>
    undo_write_bytes (UF_ENTRY_MAGIC : Int) 2 ++
      undo_write_bytes (kExtmarkMove : Int) 4 ++ p
  | .savePos _ => []

/-- `unserialize_extmark`: kind then a fixed-size raw payload. -/
def unserialize_extmark (bs : Bytes) : Option (ExtmarkUndoObject × Bytes) :=
  let r := get4c bs
  if r.1 = (kExtmarkSplice : Int) then
    match undo_read ExtmarkSplice_size r.2 with
    | none => none
    | some (p, bs2) => some (.splice p, bs2)
  else if r.1 = (kExtmarkMove : Int) then
    match undo_read ExtmarkMove_size r.2 with
    | none => none
    | some (p, bs2) => some (.move p, bs2)
  else none

/-- `serialize_uhp`: one header record — magic, the four links as
sequence numbers, the fixed fields, the `UHP_SAVE_NR` optional field,
the entries and the extmark objects. -/
def serialize_uhp (heap : List (Nat × UHeaderNode)) (n : UHeaderNode) :
    Bytes :=
  undo_write_bytes (UF_HEADER_MAGIC : Int) 2 ++
    put_header_ptr heap n.uh_next ++ put_header_ptr heap n.uh_prev ++
    put_header_ptr heap n.uh_alt_next ++ put_header_ptr heap n.uh_alt_prev ++
    undo_write_bytes n.uh_seq 4 ++ serialize_pos n.uh_cursor ++
    undo_write_bytes n.uh_cursor_vcol 4 ++
    undo_write_bytes (n.uh_flags : Int) 2 ++
    (((List.range NMARKS).map (fun i =>
      serialize_pos (n.uh_namedm.getD i posZero))).flatten) ++
    serialize_visualinfo n.uh_visual ++
    undo_write_bytes n.uh_time 8 ++
    [4, UHP_SAVE_NR] ++ undo_write_bytes n.uh_save_nr 4 ++ [0] ++
    ((n.uh_entry.map (fun uep =>
      undo_write_bytes (UF_ENTRY_MAGIC : Int) 2 ++ serialize_uep uep)).flatten) ++
    undo_write_bytes (UF_ENTRY_END_MAGIC : Int) 2 ++
    ((n.uh_extmark.map serialize_extmark).flatten) ++
    undo_write_bytes (UF_ENTRY_END_MAGIC : Int) 2

/-- Skip `len` bytes (an unknown optional field's payload). -/
def skipBytes : Nat → Bytes → Bytes
  | 0, bs => bs
  | n + 1, bs => skipBytes n bs.tail

/-- The optional-field loop of `unserialize_uhp`: end of file is a
corruption error here. -/
def uhpOptloop : Nat → Int → Bytes → Option (Int × Bytes)
  | 0, _, _ => none
  | fuel + 1, save_nr, bs =>
    let r := undo_read_byte bs
    if r.1 = -1 then none
    else if r.1 = 0 then some (save_nr, r.2)
    else
      let r2 := undo_read_byte r.2
      if r2.1 = (UHP_SAVE_NR : Int) then
        let r3 := get4c r2.2
        uhpOptloop fuel r3.1 r3.2
      else uhpOptloop fuel save_nr (skipBytes r.1.toNat r2.2)

/-- The entry loop of `unserialize_uhp`: read entries while the next
2-byte magic is `UF_ENTRY_MAGIC`; return the first other magic. -/
def uepLoop : Nat → List UEntry → Bytes → Option (List UEntry × Int × Bytes)
  | 0, _, _ => none
  | fuel + 1, acc, bs =>
    let r := get2c bs
    if r.1 = (UF_ENTRY_MAGIC : Int) then
      match unserialize_uep r.2 with
      | none => none
      | some (uep, bs2) => uepLoop fuel (acc ++ [uep]) bs2
    else some (acc, r.1, r.2)

/-- The extmark loop of `unserialize_uhp`. -/
def extmarkLoop : Nat → List ExtmarkUndoObject → Bytes →
    Option (List ExtmarkUndoObject × Int × Bytes)
  | 0, _, _ => none
  | fuel + 1, acc, bs =>
    let r := get2c bs
    if r.1 = (UF_ENTRY_MAGIC : Int) then
      match unserialize_extmark r.2 with
      | none => none
      | some (e, bs2) => extmarkLoop fuel (acc ++ [e]) bs2
    else some (acc, r.1, r.2)

/-- Read `k` positions (the named marks). -/
def readMarks : Nat → Bytes → List Pos × Bytes
  | 0, bs => ([], bs)
  | k + 1, bs =>
    let r := unserialize_pos bs
    let rs := readMarks k r.2
    (r.1 :: rs.1, rs.2)

/-- A header read back from the file: the four raw link sequence numbers
together with the header record (links unresolved, `uh_walk = 0`,
`uh_getbot_entry` cleared). -/
structure UhpRead where
  next_seq : Int
  prev_seq : Int
  alt_next_seq : Int
  alt_prev_seq : Int
  node : UHeaderNode
deriving Repr, DecidableEq

/-- `unserialize_uhp`: read one header record (after its magic). -/
def unserialize_uhp (bs : Bytes) : Option (UhpRead × Bytes) :=
  let r1 := get4c bs
  let r2 := get4c r1.2
  let r3 := get4c r2.2
  let r4 := get4c r3.2
  let r5 := get4c r4.2
  if r5.1 ≤ 0 then none
  else
    let rc := unserialize_pos r5.2
    let rv := get4c rc.2
    let rf := get2c rv.2
    let rm := readMarks NMARKS rf.2
    let rvi := unserialize_visualinfo rm.2
    let rt := get8ctime rvi.2
    match uhpOptloop (rt.2.length + 1) 0 rt.2 with
    | none => none
    | some (save_nr, bs1) =>
      match uepLoop (bs1.length + 1) [] bs1 with
      | none => none
      | some (ueps, c1, bs2) =>
        if c1 ≠ (UF_ENTRY_END_MAGIC : Int) then none
        else
          match extmarkLoop (bs2.length + 1) [] bs2 with
          | none => none
          | some (exts, c2, bs3) =>
            if c2 ≠ (UF_ENTRY_END_MAGIC : Int) then none
            else
              some ({ next_seq := r1.1
                      prev_seq := r2.1
                      alt_next_seq := r3.1
                      alt_prev_seq := r4.1
                      node := { uh_next := none
                                uh_prev := none
                                uh_alt_next := none
                                uh_alt_prev := none
                                uh_seq := r5.1
                                uh_walk := 0
                                uh_entry := ueps
                                uh_getbot_entry := none
                                uh_cursor := rc.1
                                uh_cursor_vcol := rv.1
                                uh_flags := rf.1.toNat
                                uh_namedm := rm.1
                                uh_visual := rvi.1
                                uh_time := rt.1
                                uh_save_nr := save_nr
                                uh_extmark := exts } }, bs3)

/-- `serialize_header`: the undo file header — start magic, version,
buffer hash, line count, the saved "U" line, the three tree pointers as
sequence numbers, counters, time and the `UF_LAST_SAVE_NR` optional
field. -/
def serialize_header (st : UTreeState) (hash : List Nat) : Bytes :=
  UF_START_MAGIC ++ undo_write_bytes (UF_VERSION : Int) 2 ++ hash ++
    undo_write_bytes (st.lines.length : Int) 4 ++
    (match st.b_u_line_ptr with
     | none => undo_write_bytes 0 4
     | some l => undo_write_bytes (l.length : Int) 4 ++ l) ++
    undo_write_bytes st.b_u_line_lnum 4 ++
    undo_write_bytes st.b_u_line_colnr 4 ++
    put_header_ptr st.heap st.b_u_oldhead ++
    put_header_ptr st.heap st.b_u_newhead ++
    put_header_ptr st.heap st.b_u_curhead ++
    undo_write_bytes st.b_u_numhead 4 ++
    undo_write_bytes st.b_u_seq_last 4 ++
    undo_write_bytes st.b_u_seq_cur 4 ++
    undo_write_bytes st.b_u_time_cur 8 ++
    [4, UF_LAST_SAVE_NR] ++ undo_write_bytes st.b_u_save_nr_last 4 ++ [0]

/-- Is the header at `p` unvisited in this walk (non-null and its
`uh_walk` differs from `mark`)? -/
def notVisited (heap : List (Nat × UHeaderNode)) (mark : Int)
    (p : Option Nat) : Bool :=
  match p with
  | none => false
  | some a =>
    match heapGet heap a with
    | some n => decide (n.uh_walk ≠ mark)
    | none => false

/-- The header walk of `u_write_undo`: serialize each header once
(marking it with `uh_walk := mark`), preferring `prev`, then `alt_next`,
then `next` (when there is no `alt_prev`), then `alt_prev`. -/
def u_write_walk (fuel : Nat) (heap : List (Nat × UHeaderNode))
    (mark : Int) (cur : Option Nat) (acc : Bytes) : Bytes :=
  match fuel with
  | 0 => acc
  | fuel + 1 =>
    match cur with
    | none => acc
    | some a =>
      match heapGet heap a with
      | none => acc
      | some n =>
        let heap1 :=
          if n.uh_walk ≠ mark then
            heapModify heap a (fun m => { m with uh_walk := mark })
          else heap
        let acc1 :=
          if n.uh_walk ≠ mark then acc ++ serialize_uhp heap1 n else acc
        let next :=
          if notVisited heap1 mark n.uh_prev then n.uh_prev
          else if notVisited heap1 mark n.uh_alt_next then n.uh_alt_next
          else if n.uh_alt_prev = none ∧ notVisited heap1 mark n.uh_next then
            n.uh_next
          else if n.uh_alt_prev ≠ none then n.uh_alt_prev
          else n.uh_next
        u_write_walk fuel heap1 mark next acc1

/-- `u_write_undo`: sync, then write the file header, the headers walked
from `b_u_oldhead`, and the end magic. -/
def u_write_undo (st : UTreeState) (hash : List Nat) : Bytes :=
  let st1 := u_sync_force st
  let mark := (st1.lastmark : Int) + 1
  serialize_header st1 hash ++
    u_write_walk ((st1.heap.length + 1) * (st1.heap.length + 1)) st1.heap
      mark st1.b_u_oldhead [] ++
    undo_write_bytes (UF_HEADER_END_MAGIC : Int) 2

/-- The optional-field loop of the file header: end of file simply ends
the loop here. -/
def globalOptloop : Nat → Int → Bytes → Int × Bytes
  | 0, acc, bs => (acc, bs)
  | fuel + 1, acc, bs =>
    let r := undo_read_byte bs
    if r.1 = 0 ∨ r.1 = -1 then (acc, r.2)
    else
      let r2 := undo_read_byte r.2
      if r2.1 = (UF_LAST_SAVE_NR : Int) then
        let r3 := get4c r2.2
        globalOptloop fuel r3.1 r3.2
      else globalOptloop fuel acc (skipBytes r.1.toNat r2.2)

/-- The header-table loop of `u_read_undo`: read headers while the next
2-byte magic is `UF_HEADER_MAGIC`, failing when more headers than
`num_head` appear. -/
def uhpTableLoop : Nat → Int → List UhpRead → Bytes →
    Option (List UhpRead × Int × Bytes)
  | 0, _, _, _ => none
  | fuel + 1, num_head, acc, bs =>
    let r := get2c bs
    if r.1 = (UF_HEADER_MAGIC : Int) then
      if (acc.length : Int) ≥ num_head then none
      else
        match unserialize_uhp r.2 with
        | none => none
        | some (u, bs2) => uhpTableLoop fuel num_head (acc ++ [u]) bs2
    else some (acc, r.1, r.2)

/-- Two table entries with the same `uh_seq` (the duplicate-seq
corruption check). -/
def hasDupSeq : List UhpRead → Bool
  | [] => false
  | u :: rest =>
    rest.any (fun v => v.node.uh_seq == u.node.uh_seq) || hasDupSeq rest

/-- Everything `u_read_undo` reads and validates before touching the
buffer. -/
structure UndoFileData where
  line_ptr : Option Line
  line_lnum : Int
  line_colnr : Int
  old_header_seq : Int
  new_header_seq : Int
  cur_header_seq : Int
  num_head : Int
  seq_last : Int
  seq_cur : Int
  seq_time : Int
  last_save_nr : Int
  table : List UhpRead
deriving Repr, DecidableEq

/-- The parsing and validation phase of `u_read_undo`: returns `none` on
any magic / version / hash / line-count / truncation / seq error.  The
in-memory tree is not touched in this phase. -/
def u_read_undo_parse (curLines : List Line) (hash : List Nat)
    (file : Bytes) : Option UndoFileData :=
  if file.take UF_START_MAGIC.length ≠ UF_START_MAGIC then none
  else
    let r1 := get2c (file.drop UF_START_MAGIC.length)
    if r1.1 ≠ (UF_VERSION : Int) then none
    else
      match undo_read UNDO_HASH_SIZE r1.2 with
      | none => none
      | some (read_hash, bs2) =>
        let r2 := get4c bs2
        if read_hash ≠ hash ∨ r2.1 ≠ (curLines.length : Int) then none
        else
          let r3 := get4c r2.2
          if r3.1 < 0 then none
          else
            let lp :=
              if r3.1 > 0 then
                match undo_read_string r3.1.toNat r3.2 with
                | some (l, rest) => ((some l : Option Line), rest)
                | none => ((none : Option Line), ([] : Bytes))
              else ((none : Option Line), r3.2)
            let r4 := get4c lp.2
            let r5 := get4c r4.2
            if r4.1 < 0 ∨ r5.1 < 0 then none
            else
              let r6 := get4c r5.2
              let r7 := get4c r6.2
              let r8 := get4c r7.2
              let r9 := get4c r8.2
              let r10 := get4c r9.2
              let r11 := get4c r10.2
              let r12 := get8ctime r11.2
              let ro := globalOptloop (r12.2.length + 1) 0 r12.2
              match uhpTableLoop (ro.2.length + 1) r9.1 [] ro.2 with
              | none => none
              | some (table, c, _) =>
                if (table.length : Int) ≠ r9.1 then none
                else if c ≠ (UF_HEADER_END_MAGIC : Int) then none
                else if hasDupSeq table then none
                else
                  some { line_ptr := lp.1
                         line_lnum := r4.1
                         line_colnr := r5.1
                         old_header_seq := r6.1
                         new_header_seq := r7.1
                         cur_header_seq := r8.1
                         num_head := r9.1
                         seq_last := r10.1
                         seq_cur := r11.1
                         seq_time := r12.1
                         last_save_nr := ro.1
                         table := table }

/-- Resolve a serialized link: the first table index whose header
carries that sequence number. -/
def resolveLink (table : List UhpRead) (sq : Int) : Option Nat :=
  table.findIdx? (fun u => u.node.uh_seq == sq)

/-- Resolve `old/new/cur_header_seq`: only positive sequence numbers are
looked up. -/
def resolveHead (table : List UhpRead) (sq : Int) : Option Nat :=
  if sq > 0 then table.findIdx? (fun u => u.node.uh_seq == sq) else none

/-- The install phase of `u_read_undo`: free the current tree, place the
read headers in the arena at addresses `0..n-1`, swizzle each stored
sequence number into an address, and take over the counters. -/
def u_read_undo_install (st : UTreeState) (d : UndoFileData) : UTreeState :=
  let table := d.table
  { st with
    heap := table.enum.map (fun p =>
      (p.1, { p.2.node with
              uh_next := resolveLink table p.2.next_seq
              uh_prev := resolveLink table p.2.prev_seq
              uh_alt_next := resolveLink table p.2.alt_next_seq
              uh_alt_prev := resolveLink table p.2.alt_prev_seq }))
    nextAddr := table.length
    b_u_oldhead := resolveHead table d.old_header_seq
    b_u_newhead := resolveHead table d.new_header_seq
    b_u_curhead := resolveHead table d.cur_header_seq
    b_u_line_ptr := d.line_ptr
    b_u_line_lnum := d.line_lnum
    b_u_line_colnr := d.line_colnr
    b_u_numhead := d.num_head
    b_u_seq_last := d.seq_last
    b_u_seq_cur := d.seq_cur
    b_u_time_cur := d.seq_time
    b_u_save_nr_last := d.last_save_nr
    b_u_save_nr_cur := d.last_save_nr
    b_u_synced := true }

/-- `u_read_undo`: parse and validate the file; on success replace the
in-memory tree, on any error leave the buffer exactly as it was. -/
def u_read_undo (st : UTreeState) (hash : List Nat) (file : Bytes) :
    UTreeState :=
  match u_read_undo_parse st.lines hash file with
  | none => st
  | some d => u_read_undo_install st d

/-- The number of distinct headers reachable from `b_u_oldhead` by
`uh_prev` / `uh_alt_next` / `uh_alt_prev` traversals (the quantity
`b_u_numhead` is documented to track). -/
def reachAux (heap : List (Nat × UHeaderNode)) :
    Nat → List Nat → List Nat → List Nat
  | 0, visited, _ => visited
  | _ + 1, visited, [] => visited
  | fuel + 1, visited, a :: queue =>
    if visited.contains a then reachAux heap fuel visited queue
    else
      match heapGet heap a with
      | none => reachAux heap fuel visited queue
      | some n =>
        reachAux heap fuel (visited ++ [a])
          (queue ++ [n.uh_prev, n.uh_alt_next, n.uh_alt_prev].filterMap id)

/-- The count of distinct headers reachable from `b_u_oldhead`. -/
def reachableCount (st : UTreeState) : Nat :=
  match st.b_u_oldhead with
  | none => 0
  | some a => (reachAux st.heap (st.heap.length * 4 + 4) [] [a]).length

/-! ## Concrete evaluation states -/

/-- 26 cleared named marks. -/
def marksZero : List Pos := List.replicate NMARKS posZero

/-- The cleared Visual region. -/
def visualZero : VisualInfo :=
  { vi_start := posZero, vi_end := posZero, vi_mode := 0, vi_curswant := 0 }

/-- A baseline header node for the concrete evaluation states. -/
def hdrBase : UHeaderNode := {
  uh_next := none
  uh_prev := none
  uh_alt_next := none
  uh_alt_prev := none
  uh_seq := 1
  uh_walk := 0
  uh_entry := [{ ue_id := 0, ue_top := 0, ue_bot := 2, ue_lcount := 1,
                 ue_size := 1, ue_array := [[97]] }]
  uh_getbot_entry := none
  uh_cursor := { lnum := 1, col := 0, coladd := 0 }
  uh_cursor_vcol := -1
  uh_flags := 0
  uh_namedm := marksZero
  uh_visual := visualZero
  uh_time := 99
  uh_save_nr := 0
  uh_extmark := [] }

/-- A baseline buffer state: one header, a one-line buffer `["x"]`, undo
allowed, synced. -/
def stBase : UTreeState := {
  heap := [(0, hdrBase)]
  nextAddr := 1
  nextEntryId := 1
  b_u_oldhead := some 0
  b_u_newhead := some 0
  b_u_curhead := none
  b_u_numhead := 1
  b_u_seq_last := 1
  b_u_seq_cur := 1
  b_u_save_nr_last := 0
  b_u_save_nr_cur := 0
  b_u_time_cur := 100
  b_u_synced := true
  b_new_change := false
  b_u_line_ptr := none
  b_u_line_lnum := 0
  b_u_line_colnr := 0
  lastmark := 0
  lines := [[120]]
  ml_empty := false
  changed := false
  namedm := marksZero
  visual := visualZero
  cursor := { lnum := 1, col := 0, coladd := 0 }
  virtualActive := false
  op_start := posZero
  op_end := posZero
  b_p_ul := 1000
  p_ul := 1000
  modifiable := true
  sandbox := false
  textlock := false
  gotInt := false
  timeNow := 1000
  msgs := [] }

/-- The pending entry of `hdrGetbot`. -/
def entGetbot : UEntry :=
  { ue_id := 0, ue_top := 0, ue_bot := 0, ue_lcount := 1, ue_size := 0,
    ue_array := [] }

/-- A header with a pending `uh_getbot_entry`. -/
def hdrGetbot : UHeaderNode := { hdrBase with
  uh_entry := [entGetbot]
  uh_getbot_entry := some 0 }

/-- An unsynced state whose newest header has `ue_bot` pending. -/
def stGetbot : UTreeState := { stBase with
  heap := [(0, hdrGetbot)]
  b_u_synced := false }



/-- Scenario-A header: one single-line entry over line 1, EMPTYBUF flag
set, named mark `'a` set, Visual region set, `uh_save_nr = 0`. -/
def hdrApplyA : UHeaderNode := {
  uh_next := none
  uh_prev := none
  uh_alt_next := none
  uh_alt_prev := none
  uh_seq := 1
  uh_walk := 0
  uh_entry := [{ ue_id := 0, ue_top := 0, ue_bot := 2, ue_lcount := 0,
                 ue_size := 1, ue_array := [[97]] }]
  uh_getbot_entry := none
  uh_cursor := { lnum := 1, col := 0, coladd := 0 }
  uh_cursor_vcol := -1
  uh_flags := UH_EMPTYBUF
  uh_namedm := { lnum := 5, col := 1, coladd := 0 } :: List.replicate 25 posZero
  uh_visual := { vi_start := { lnum := 1, col := 2, coladd := 0 }
                 vi_end := { lnum := 1, col := 3, coladd := 0 }
                 vi_mode := 118, vi_curswant := 0 }
  uh_time := 99
  uh_save_nr := 0
  uh_extmark := [] }

/-- Scenario-A state: two-line buffer, cursor on line 2, mark `'a` and
the Visual region unset on the buffer side, `b_u_save_nr_cur = 7`,
`hdrApplyA` pending as `b_u_curhead`. -/
def stApplyA : UTreeState := { stBase with
  heap := [(0, hdrApplyA)]
  b_u_curhead := some 0
  b_u_save_nr_cur := 7
  lines := [[120], [121]]
  changed := true
  namedm := { lnum := 0, col := 9, coladd := 0 } :: List.replicate 25 posZero
  cursor := { lnum := 2, col := 3, coladd := 0 } }

/-- Scenario-B header: a pure-deletion entry covering the whole buffer
(`size = 0`, `bot = 0`). -/
def hdrApplyB : UHeaderNode := { hdrApplyA with
  uh_entry := [{ ue_id := 0, ue_top := 0, ue_bot := 0, ue_lcount := 0,
                 ue_size := 0, ue_array := [] }]
  uh_flags := 0
  uh_namedm := marksZero
  uh_visual := visualZero }

/-- Scenario-B state: one-line buffer with the whole-buffer deletion
entry pending. -/
def stApplyB : UTreeState := { stApplyA with
  heap := [(0, hdrApplyB)]
  lines := [[120]]
  namedm := marksZero }

/-- Scenario-A header with a nonzero `uh_save_nr`. -/
def hdrApplyS : UHeaderNode := { hdrApplyA with uh_save_nr := 3 }

/-- Scenario-A state with a save-boundary header. -/
def stApplyS : UTreeState := { stApplyA with heap := [(0, hdrApplyS)] }

/-- Fallback entry for list indexing in statements. -/
def dummyEntry : UEntry :=
  { ue_id := 0, ue_top := 0, ue_bot := 0, ue_lcount := 0, ue_size := 0,
    ue_array := [] }

/-- A consistent multi-line entry (size 3 over lines 11-13). -/
def entC7a : UEntry :=
  { ue_id := 5, ue_top := 10, ue_bot := 14, ue_lcount := 0, ue_size := 3,
    ue_array := [[65], [66], [67]] }

/-- A consistent single-line entry for line 1. -/
def entC7b : UEntry :=
  { ue_id := 6, ue_top := 0, ue_bot := 2, ue_lcount := 0, ue_size := 1,
    ue_array := [[98]] }

/-- Unsynced header whose newest entry is the multi-line `entC7a`,
followed by the single-line `entC7b`. -/
def hdrC7 : UHeaderNode := { hdrBase with uh_entry := [entC7a, entC7b] }

/-- Unsynced 20-line state for the coalescing scenario. -/
def stC7 : UTreeState := { stBase with
  heap := [(0, hdrC7)]
  b_u_synced := false
  lines := List.replicate 20 [122] }

/-- The state produced by the coalescing scan in the C7 scenario. -/
def stC7' : UTreeState :=
  (coalesceScan stC7 0 none 0 2 0 0 hdrC7.uh_entry).getD stC7

/-- A policy-denied state: buffer not modifiable. -/
def stPolicy : UTreeState := { stBase with modifiable := false }


/-- The all-zero 32-byte buffer hash used by the concrete scenarios. -/
def hashZero : List Nat := List.replicate 32 0

/-- A minimal serialized header record with sequence number `sq`: no
links, zero cursor/marks/visual/time, no optional fields, no entries, no
extmark objects. -/
def uhpBytesMin (sq : Int) : Bytes :=
  undo_write_bytes (UF_HEADER_MAGIC : Int) 2 ++
  undo_write_bytes 0 4 ++ undo_write_bytes 0 4 ++
  undo_write_bytes 0 4 ++ undo_write_bytes 0 4 ++
  undo_write_bytes sq 4 ++ serialize_pos posZero ++
  undo_write_bytes 0 4 ++ undo_write_bytes 0 2 ++
  (((List.range NMARKS).map (fun _ => serialize_pos posZero)).flatten) ++
  serialize_visualinfo visualZero ++ undo_write_bytes 0 8 ++ [0] ++
  undo_write_bytes (UF_ENTRY_END_MAGIC : Int) 2 ++
  undo_write_bytes (UF_ENTRY_END_MAGIC : Int) 2

/-- A crafted undo file that passes every check `u_read_undo` makes:
correct magic, version, hash and line count, `num_head = 2` and two
well-formed headers (seq 1 and 2) with no links at all, `old_head_seq =
new_head_seq = 1`.  Only the seq-1 header is reachable from
`old_head`. -/
def fileC4 : Bytes :=
  UF_START_MAGIC ++ undo_write_bytes (UF_VERSION : Int) 2 ++ hashZero ++
  undo_write_bytes 1 4 ++ undo_write_bytes 0 4 ++
  undo_write_bytes 0 4 ++ undo_write_bytes 0 4 ++
  undo_write_bytes 1 4 ++ undo_write_bytes 1 4 ++ undo_write_bytes 0 4 ++
  undo_write_bytes 2 4 ++ undo_write_bytes 2 4 ++ undo_write_bytes 2 4 ++
  undo_write_bytes 0 8 ++ [0] ++
  uhpBytesMin 1 ++ uhpBytesMin 2 ++
  undo_write_bytes (UF_HEADER_END_MAGIC : Int) 2

/-- The state after loading `fileC4` into the baseline buffer. -/
def stC4read : UTreeState := u_read_undo stBase hashZero fileC4

/-- The state after loading `fileC4` into a buffer with `undolevels`
0. -/
def stC9read : UTreeState :=
  u_read_undo { stBase with b_p_ul := 0 } hashZero fileC4

/-- A header carrying an `ExtmarkSavePos` undo object. -/
def hdrC2 : UHeaderNode := { hdrBase with uh_extmark := [.savePos [1, 2, 3]] }

/-- A one-header tree whose header holds a save-pos extmark object. -/
def stC2 : UTreeState := { stBase with heap := [(0, hdrC2)] }

/-- The undo file written for `stC2`. -/
def fileC2 : Bytes := u_write_undo stC2 hashZero

/-- `stC2` after write, clear-tree and read-back. -/
def stC2read : UTreeState := u_read_undo { stC2 with heap := [] } hashZero fileC2


/-- A value exactly representable in a serialized signed 32-bit field. -/
def wfI32 (v : Int) : Prop := -(2 ^ 31) ≤ v ∧ v < 2 ^ 31

instance (v : Int) : Decidable (wfI32 v) := by
  unfold wfI32
  infer_instance

/-- A position whose coordinates survive serialization and the read
clamps. -/
def wfPos (p : Pos) : Prop :=
  0 ≤ p.lnum ∧ p.lnum < 2 ^ 31 ∧ 0 ≤ p.col ∧ p.col < 2 ^ 31 ∧
  0 ≤ p.coladd ∧ p.coladd < 2 ^ 31

instance (p : Pos) : Decidable (wfPos p) := by
  unfold wfPos
  infer_instance

/-- A Visual region whose fields survive serialization. -/
def wfVisual (v : VisualInfo) : Prop :=
  wfPos v.vi_start ∧ wfPos v.vi_end ∧ wfI32 v.vi_mode ∧ wfI32 v.vi_curswant

instance (v : VisualInfo) : Decidable (wfVisual v) := by
  unfold wfVisual
  infer_instance

/-- An entry whose fields survive serialization: 32-bit ranges,
`ue_size` matching the stored line count, and serializable line
lengths. -/
def wfUep (u : UEntry) : Prop :=
  wfI32 u.ue_top ∧ wfI32 u.ue_bot ∧ wfI32 u.ue_lcount ∧
  0 ≤ u.ue_size ∧ u.ue_size < 2 ^ 31 ∧
  u.ue_size.toNat = u.ue_array.length ∧
  ∀ l ∈ u.ue_array, (l.length : Int) < 2 ^ 31

instance (u : UEntry) : Decidable (wfUep u) := by
  unfold wfUep
  infer_instance

/-- An extmark undo object whose raw payload has the struct size its
kind is read back with. -/
def wfExtmark : ExtmarkUndoObject → Prop
  | .splice p => p.length = ExtmarkSplice_size
  | .move p => p.length = ExtmarkMove_size
  | .savePos _ => True

instance (e : ExtmarkUndoObject) : Decidable (wfExtmark e) := by
  unfold wfExtmark
  cases e <;> infer_instance

/-- Is this extmark object kind serialized at all? -/
def extmarkKeep (e : ExtmarkUndoObject) : Bool :=
  match e with
  | .savePos _ => false
  | _ => true

/-- A header whose serialized fields survive the byte encoding. -/
def wfUhp (n : UHeaderNode) : Prop :=
  0 < n.uh_seq ∧ n.uh_seq < 2 ^ 31 ∧
  wfPos n.uh_cursor ∧ wfI32 n.uh_cursor_vcol ∧
  n.uh_flags < 2 ^ 16 ∧
  (∀ i < NMARKS, wfPos (n.uh_namedm.getD i posZero)) ∧
  wfVisual n.uh_visual ∧
  0 ≤ n.uh_time ∧ n.uh_time < 2 ^ 63 ∧
  wfI32 n.uh_save_nr ∧
  (∀ u ∈ n.uh_entry, wfUep u) ∧
  (∀ e ∈ n.uh_extmark, wfExtmark e)

instance (n : UHeaderNode) : Decidable (wfUhp n) := by
  unfold wfUhp
  infer_instance

/-- What a serialized header reads back as: links cleared (they are
re-resolved from the stored sequence numbers), `uh_walk` and
`uh_getbot_entry` reset, entry ids fresh, the mark list normalized to
`NMARKS` slots, and the `ExtmarkSavePos` objects dropped. -/
def uhpNorm (n : UHeaderNode) : UHeaderNode :=
  { n with
    uh_next := none
    uh_prev := none
    uh_alt_next := none
    uh_alt_prev := none
    uh_walk := 0
    uh_entry := n.uh_entry.map (fun u => { u with ue_id := 0 })
    uh_getbot_entry := none
    uh_namedm := (List.range NMARKS).map (fun i => n.uh_namedm.getD i posZero)
    uh_extmark := n.uh_extmark.filter extmarkKeep }

/-! ## Basic arena lemmas -/

theorem heapGet_heapModify_self (h : List (Nat × UHeaderNode)) (a : Nat)
    (f : UHeaderNode → UHeaderNode) :
    heapGet (heapModify h a f) a = (heapGet h a).map f := by
  induction h with
  | nil => rfl
  | cons p t ih =>
    by_cases hp : p.1 = a
    · simp [heapGet, heapModify, List.find?_cons, hp]
    · simpa [heapGet, heapModify, List.find?_cons, hp] using ih

theorem heapGet_heapSet_self (h : List (Nat × UHeaderNode)) (a : Nat)
    (n : UHeaderNode) :
    heapGet (heapSet h a n) a = (heapGet h a).map (fun _ => n) := by
  induction h with
  | nil => rfl
  | cons p t ih =>
    by_cases hp : p.1 = a
    · simp [heapGet, heapSet, List.find?_cons, hp]
    · simpa [heapGet, heapSet, List.find?_cons, hp] using ih

/-! ## C5: the `u_save_buf` precondition -/

/-- C5: `u_save_buf` returns `FAIL` whenever `top >= bot` or
`bot > line_count + 1`, and in that case the whole undo state is
unchanged (no header, no entry); when the precondition
`top < bot <= line_count + 1` holds it records the line for "U" when the
range is a single line and proceeds to `u_savecommon` to record the
range. -/
theorem C5_u_save_buf_precondition (st : UTreeState) (top bot : Int) :
    (top ≥ bot ∨ bot > (st.lines.length : Int) + 1 →
      u_save_buf st top bot = (UResult.FAIL, st)) ∧
    (top < bot ∧ bot ≤ (st.lines.length : Int) + 1 →
      u_save_buf st top bot =
        u_savecommon (if top + 2 = bot then u_saveline st (top + 1) else st)
          top bot 0 false) := by
  constructor
  · intro h
    unfold u_save_buf
    rw [if_pos h]
  · intro h
    unfold u_save_buf
    rw [if_neg (by omega)]


/-- C5 witness: at the concrete one-line buffer, `u_save_buf 2 1` fails
leaving the state untouched, and `u_save_buf 0 2` proceeds to record. -/
theorem C5_u_save_buf_precondition_witness :
    u_save_buf stBase 2 1 = (UResult.FAIL, stBase) ∧
    u_save_buf stBase 0 2 =
      u_savecommon (if (0 : Int) + 2 = 2 then u_saveline stBase 1 else stBase)
        0 2 0 false :=
  ⟨(C5_u_save_buf_precondition stBase 2 1).1 (Or.inl (by norm_num)),
   (C5_u_save_buf_precondition stBase 0 2).2 (by refine ⟨by norm_num, by decide⟩)⟩


/-! ## C6: `u_getbot` resolves the pending bottom line -/

/-- C6: when `uh_getbot_entry` refers to entry `e` of `b_u_newhead`,
`u_getbot` sets that entry's `ue_bot` to
`top + size + 1 + (current line count - lcount)`, falling back to
`top + 1` with an E440 report when the result is outside
`[1, line_count]`; it clears `uh_getbot_entry` and marks the tree
synced. -/
theorem C6_u_getbot_resolves (st : UTreeState) (nh : Nat) (n : UHeaderNode)
    (gid : Nat) (e : UEntry)
    (hnh : st.b_u_newhead = some nh) (hn : heapGet st.heap nh = some n)
    (hne : n.uh_entry ≠ []) (hg : n.uh_getbot_entry = some gid)
    (he : n.uh_entry.find? (fun e2 => e2.ue_id = gid) = some e) :
    (u_getbot st).b_u_synced = true ∧
    heapGet (u_getbot st).heap nh = some { n with
      uh_entry := n.uh_entry.map (fun e2 =>
        if e2.ue_id = gid then
          { e2 with ue_bot :=
            if e.ue_top + e.ue_size + 1 + ((st.lines.length : Int) - e.ue_lcount) < 1 ∨
               e.ue_top + e.ue_size + 1 + ((st.lines.length : Int) - e.ue_lcount) >
                 (st.lines.length : Int) then
              e.ue_top + 1
            else e.ue_top + e.ue_size + 1 + ((st.lines.length : Int) - e.ue_lcount) }
        else e2)
      uh_getbot_entry := none } ∧
    (u_getbot st).msgs =
      (if e.ue_top + e.ue_size + 1 + ((st.lines.length : Int) - e.ue_lcount) < 1 ∨
          e.ue_top + e.ue_size + 1 + ((st.lines.length : Int) - e.ue_lcount) >
            (st.lines.length : Int) then
        st.msgs ++ ["E440"]
      else st.msgs) := by
  obtain ⟨e0, rest, hentry⟩ : ∃ e0 rest, n.uh_entry = e0 :: rest := by
    cases hE : n.uh_entry with
    | nil => exact absurd hE hne
    | cons a b => exact ⟨a, b, rfl⟩
  have hhead : u_get_headentry st = some e0 := by
    unfold u_get_headentry
    simp only [hnh, hn, hentry]
  unfold u_getbot
  simp only [hhead, hnh, hn, hg, he]
  by_cases hbad : e.ue_top + e.ue_size + 1 + ((st.lines.length : Int) - e.ue_lcount) < 1 ∨
      e.ue_top + e.ue_size + 1 + ((st.lines.length : Int) - e.ue_lcount) >
        (st.lines.length : Int)
  · simp only [if_pos hbad]
    refine ⟨by simp, ?_, by simp⟩
    rw [heapGet_heapModify_self, hn]
    rfl
  · simp only [if_neg hbad]
    refine ⟨by simp, ?_, by simp⟩
    rw [heapGet_heapModify_self, hn]
    rfl

/-- C6 witness: the pending-bottom resolution applied at the concrete
unsynced state `stGetbot`. -/
theorem C6_u_getbot_resolves_witness :
    stGetbot.b_u_newhead = some 0 ∧
    heapGet stGetbot.heap 0 = some hdrGetbot ∧
    hdrGetbot.uh_entry ≠ [] ∧
    hdrGetbot.uh_getbot_entry = some 0 ∧
    hdrGetbot.uh_entry.find? (fun e2 => e2.ue_id = 0) = some entGetbot ∧
    (u_getbot stGetbot).b_u_synced = true :=
  ⟨rfl, by decide, by decide, rfl, by decide,
   (C6_u_getbot_resolves stGetbot 0 hdrGetbot 0 entGetbot rfl (by decide)
     (by decide) rfl (by decide)).1⟩

/-! ## C8: the `save_nr_cur` update in `u_undoredo` -/

/-- C8 counterexample: redoing a header whose `uh_save_nr` is 0 leaves
`b_u_save_nr_cur` at its previous value (7), not at `uh_save_nr` (0) as
the claim requires for every header. -/
theorem C8_counterexample :
    (uLoop hdrApplyA.uh_cursor hdrApplyA.uh_entry (initLoopState stApplyA)).2
      = true ∧
    (heapGet stApplyA.heap 0).map (fun n => n.uh_save_nr) = some 0 ∧
    (u_undoredo false stApplyA).b_u_save_nr_cur = 7 ∧ ((7 : Int) ≠ 0) := by
  decide

/-- C8 (amended): after a successful `u_undoredo` of the header at
`b_u_curhead`, `b_u_save_nr_cur` equals `uh_save_nr` on redo and
`uh_save_nr - 1` on undo provided `uh_save_nr` is nonzero; when
`uh_save_nr = 0` it is left unchanged. -/
theorem C8_save_nr_update (st : UTreeState) (ca : Nat) (n : UHeaderNode)
    (undo : Bool)
    (hca : st.b_u_curhead = some ca) (hn : heapGet st.heap ca = some n)
    (hok : (uLoop n.uh_cursor n.uh_entry (initLoopState st)).2 = true) :
    (u_undoredo undo st).b_u_save_nr_cur =
      (if n.uh_save_nr ≠ 0 then
        (if undo then n.uh_save_nr - 1 else n.uh_save_nr)
       else st.b_u_save_nr_cur) := by
  unfold u_undoredo
  simp only [hca, hn, hok, if_true]

/-- C8 witness: undoing the concrete save boundary (`uh_save_nr = 3`)
sets `b_u_save_nr_cur` to 2. -/
theorem C8_save_nr_update_witness :
    (u_undoredo true stApplyS).b_u_save_nr_cur = 2 := by
  have h := C8_save_nr_update stApplyS 0 hdrApplyS true rfl rfl (by decide)
  rw [h]
  decide
/-! ## C7: what aborts the coalescing scan -/

/-- C7 counterexample: a single-line save on line 1 reuses the older
single-line entry `entC7b` even though the more recent entry `entC7a`
(scanned before it) has size 3 ≠ 1: the reused entry is moved to the
front, no new entry is allocated, and the save returns OK. -/
theorem C7_counterexample :
    hdrC7.uh_entry.head?.map (fun e => e.ue_size) = some 3 ∧
    (u_savecommon stC7 0 2 0 false).1 = UResult.OK ∧
    (heapGet (u_savecommon stC7 0 2 0 false).2.heap 0).map
      (fun n => n.uh_entry.map (fun e => e.ue_id)) = some [6, 5] ∧
    (u_savecommon stC7 0 2 0 false).2.nextEntryId = stC7.nextEntryId := by
  decide

/-- C7 (amended): when the coalescing scan reuses an entry, every entry
scanned before it showed neither line-count drift nor a multi-line
overlap with the saved line (and the reused entry is a single-line entry
at the saved `top`, within the 10-entry window).  A size ≠ 1 entry alone
does not abort the scan unless it overlaps. -/
theorem C7_coalesce_abort (st : UTreeState) (nh : Nat) (gid : Option Nat)
    (top bot newbot : Int) (es : List UEntry) (i : Nat) (st' : UTreeState)
    (h : coalesceScan st nh gid top bot newbot i es = some st') :
    ∃ j, j < es.length ∧ i + j < 10 ∧
      (es.getD j dummyEntry).ue_size = 1 ∧
      (es.getD j dummyEntry).ue_top = top ∧
      ∀ k, k < j →
        ¬ scanDrift (st.lines.length : Int) gid (es.getD k dummyEntry) ∧
        ¬ scanOverlap top (es.getD k dummyEntry) := by
  induction es generalizing i with
  | nil => exact absurd h (by simp [coalesceScan])
  | cons uep rest ih =>
    unfold coalesceScan at h
    by_cases h10 : 10 ≤ i
    · rw [if_pos h10] at h
      cases h
    · rw [if_neg h10] at h
      by_cases habort :
          scanDrift (st.lines.length : Int) gid uep ∨ scanOverlap top uep
      · rw [if_pos habort] at h
        cases h
      · rw [if_neg habort] at h
        by_cases hmatch : uep.ue_size = 1 ∧ uep.ue_top = top
        · refine ⟨0, by simp, by omega, hmatch.1, hmatch.2, ?_⟩
          intro k hk
          exact absurd hk (by omega)
        · rw [if_neg hmatch] at h
          obtain ⟨j, hj1, hj2, hj3, hj4, hj5⟩ := ih (i + 1) h
          push_neg at habort
          refine ⟨j + 1, by simpa using hj1, by omega, hj3, hj4, ?_⟩
          intro k hk
          cases k with
          | zero => exact habort
          | succ k => exact hj5 k (by omega)

/-- C7 witness: the amended guarantee holds at the concrete scenario. -/
theorem C7_coalesce_abort_witness :
    ∃ j, j < hdrC7.uh_entry.length ∧ 0 + j < 10 ∧
      (hdrC7.uh_entry.getD j dummyEntry).ue_size = 1 ∧
      (hdrC7.uh_entry.getD j dummyEntry).ue_top = 0 ∧
      ∀ k, k < j →
        ¬ scanDrift (stC7.lines.length : Int) none
            (hdrC7.uh_entry.getD k dummyEntry) ∧
        ¬ scanOverlap 0 (hdrC7.uh_entry.getD k dummyEntry) :=
  C7_coalesce_abort stC7 0 none 0 2 0 hdrC7.uh_entry 0 stC7' (by decide)
/-! ## Preservation lemmas for the freeing routines -/

theorem u_freeentries_gotInt (st : UTreeState) (a : Nat) (uhpp : Option Nat) :
    (u_freeentries st a uhpp).1.gotInt = st.gotInt := rfl

theorem altChainSetNext_gotInt (fuel : Nat) :
    ∀ st a nx, (altChainSetNext fuel st a nx).gotInt = st.gotInt := by
  induction fuel with
  | zero => intros; rfl
  | succ fuel ih =>
    intro st a nx
    simp only [altChainSetNext]
    split
    · rfl
    · split
      · rw [ih]
      · rfl

theorem freeFns_gotInt (fuel : Nat) :
    (∀ st a uhpp, (u_freeheader fuel st a uhpp).1.gotInt = st.gotInt) ∧
    (∀ st a uhpp, (u_freebranch fuel st a uhpp).1.gotInt = st.gotInt) ∧
    (∀ st uhpp, (freeAllFromOldhead fuel st uhpp).1.gotInt = st.gotInt) ∧
    (∀ st next uhpp, (freebranchLoop fuel st next uhpp).1.gotInt = st.gotInt)
    := by
  induction fuel with
  | zero => exact ⟨fun _ _ _ => rfl, fun _ _ _ => rfl, fun _ _ => rfl,
      fun _ _ _ => rfl⟩
  | succ fuel ih =>
    obtain ⟨ih1, ih2, ih3, ih4⟩ := ih
    refine ⟨?_, ?_, ?_, ?_⟩ <;> intros <;>
      simp only [u_freeheader, u_freebranch, freeAllFromOldhead,
        freebranchLoop] <;>
      (repeat' split) <;>
      simp_all [u_freeentries, altChainSetNext_gotInt]

theorem u_freeheader_gotInt (fuel : Nat) (st : UTreeState) (a : Nat)
    (uhpp : Option Nat) : (u_freeheader fuel st a uhpp).1.gotInt = st.gotInt :=
  (freeFns_gotInt fuel).1 st a uhpp

theorem u_freebranch_gotInt (fuel : Nat) (st : UTreeState) (a : Nat)
    (uhpp : Option Nat) : (u_freebranch fuel st a uhpp).1.gotInt = st.gotInt :=
  (freeFns_gotInt fuel).2.1 st a uhpp

theorem trimLoop_gotInt (fuel : Nat) :
    ∀ st oc, (trimLoop fuel st oc).1.gotInt = st.gotInt := by
  induction fuel with
  | zero => intros; rfl
  | succ fuel ih =>
    intro st oc
    simp only [trimLoop]
    (repeat' split) <;>
      simp_all [u_freeheader_gotInt, u_freebranch_gotInt]

theorem u_getbot_gotInt (st : UTreeState) : (u_getbot st).gotInt = st.gotInt
    := by
  unfold u_getbot
  dsimp only
  (repeat' split) <;> rfl

theorem u_getbot_newhead (st : UTreeState) :
    (u_getbot st).b_u_newhead = st.b_u_newhead := by
  unfold u_getbot
  dsimp only
  (repeat' split) <;> rfl

theorem coalesceFinish_synced (st : UTreeState) (nh eid : Nat)
    (bot newbot : Int) :
    (coalesceFinish st nh eid bot newbot).b_u_synced = st.b_u_synced := by
  unfold coalesceFinish
  dsimp only
  (repeat' split) <;> rfl

theorem coalesceScan_synced (st : UTreeState) (nh : Nat) (gid : Option Nat)
    (top bot newbot : Int) :
    ∀ es i st1, coalesceScan st nh gid top bot newbot i es = some st1 →
      st.b_u_synced = false → st1.b_u_synced = false := by
  intro es
  induction es with
  | nil => intro i st1 h; exact absurd h (by simp [coalesceScan])
  | cons uep rest ih =>
    intro i st1 h hsync
    unfold coalesceScan at h
    by_cases h10 : 10 ≤ i
    · rw [if_pos h10] at h; cases h
    · rw [if_neg h10] at h
      by_cases habort :
          scanDrift (st.lines.length : Int) gid uep ∨ scanOverlap top uep
      · rw [if_pos habort] at h; cases h
      · rw [if_neg habort] at h
        by_cases hmatch : uep.ue_size = 1 ∧ uep.ue_top = top
        · rw [if_pos hmatch] at h
          by_cases hi : 0 < i
          · rw [if_pos hi] at h
            cases h
            rw [coalesceFinish_synced]
            rfl
          · rw [if_neg hi] at h
            cases h
            rw [coalesceFinish_synced]
            exact hsync
        · rw [if_neg hmatch] at h
          exact ih (i + 1) st1 h hsync

theorem saveEntryCommon_ok (st : UTreeState) (nh : Nat)
    (top bot newbot size : Int) (reload : Bool) (h : st.gotInt = false) :
    (saveEntryCommon st nh top bot newbot size reload).1 = UResult.OK ∧
    (saveEntryCommon st nh top bot newbot size reload).2.b_u_synced = false
    := by
  unfold saveEntryCommon
  dsimp only
  (repeat' split) <;> simp_all [apply_ite]
/-! ## C10: `reload = true` bypasses the policy checks -/

theorem detachCurhead_gotInt (st : UTreeState) :
    (detachCurhead st).gotInt = st.gotInt := by
  unfold detachCurhead
  split <;> rfl

theorem linkNewHeader_gotInt (st : UTreeState) (oc : Option Nat) (na : Nat) :
    (linkNewHeader st oc na).gotInt = st.gotInt := by
  unfold linkNewHeader
  dsimp only
  (repeat' split) <;> rfl

theorem u_savecommon_synced_ok (st : UTreeState) (top bot newbot size : Int)
    (reload : Bool) (hint : st.gotInt = false) :
    (u_savecommon_synced st top bot newbot size reload).1 = UResult.OK ∧
    (u_savecommon_synced st top bot newbot size reload).2.b_u_synced = false
    := by
  unfold u_savecommon_synced
  dsimp only
  split
  · exact ⟨rfl, rfl⟩
  · apply saveEntryCommon_ok
    rw [linkNewHeader_gotInt, trimLoop_gotInt, detachCurhead_gotInt]
    split <;> exact hint

theorem u_savecommon_unsynced_ok (st : UTreeState) (top bot newbot size : Int)
    (reload : Bool) (hint : st.gotInt = false) (hsync : st.b_u_synced = false)
    (hnn : st.b_u_newhead ≠ none) :
    (u_savecommon_unsynced st top bot newbot size reload).1 = UResult.OK ∧
    (u_savecommon_unsynced st top bot newbot size reload).2.b_u_synced = false
    := by
  unfold u_savecommon_unsynced
  split
  · exact ⟨rfl, hsync⟩
  · dsimp only
    split
    · rename_i st1 heq
      refine ⟨rfl, ?_⟩
      split at heq
      · split at heq
        · split at heq
          · exact coalesceScan_synced _ _ _ _ _ _ _ _ _ heq hsync
          · cases heq
        · cases heq
      · cases heq
    · cases hnb : (u_getbot st).b_u_newhead with
      | none =>
        rw [u_getbot_newhead] at hnb
        exact absurd hnb hnn
      | some nh =>
        simp only [hnb]
        apply saveEntryCommon_ok
        rw [u_getbot_gotInt]
        exact hint

/-- C10: in a state where the policy check fails — so a normal save
returns `FAIL` and changes nothing — calling `u_savecommon` with
`reload = true` skips both the policy check and the E881 line-count
check (no constraint on `bot` is needed) and records the save, returning
`OK` with the tree left unsynced.  Hypotheses: no pending cooperative
cancellation, and an unsynced state has a newest header to append to. -/
theorem C10_reload_skips_policy (st : UTreeState) (top bot newbot : Int)
    (hpol : undo_allowed st = false) (hint : st.gotInt = false)
    (hwf : st.b_u_synced = false → st.b_u_newhead ≠ none) :
    u_savecommon st top bot newbot false = (UResult.FAIL, st) ∧
    (u_savecommon st top bot newbot true).1 = UResult.OK ∧
    (u_savecommon st top bot newbot true).2.b_u_synced = false := by
  have hfail : u_savecommon st top bot newbot false = (UResult.FAIL, st) := by
    unfold u_savecommon
    rw [if_pos ⟨by simp, by simp [hpol]⟩]
  have hmain : (u_savecommon st top bot newbot true).1 = UResult.OK ∧
      (u_savecommon st top bot newbot true).2.b_u_synced = false := by
    unfold u_savecommon
    rw [if_neg (by simp), if_neg (by simp)]
    by_cases hsync : st.b_u_synced
    · simp only [hsync, if_true]
      exact u_savecommon_synced_ok st top bot newbot _ true hint
    · have hsf : st.b_u_synced = false := by simpa using hsync
      simp only [hsf, if_false]
      exact u_savecommon_unsynced_ok st top bot newbot _ true hint hsf (hwf hsf)
  exact ⟨hfail, hmain.1, hmain.2⟩

/-- C10 witness: at the concrete non-modifiable state, a normal save
fails without touching the state while the reload save succeeds. -/
theorem C10_reload_skips_policy_witness :
    u_savecommon stPolicy 0 2 0 false = (UResult.FAIL, stPolicy) ∧
    (u_savecommon stPolicy 0 2 0 true).1 = UResult.OK ∧
    (u_savecommon stPolicy 0 2 0 true).2.b_u_synced = false :=
  C10_reload_skips_policy stPolicy 0 2 0 (by decide) rfl (fun _ => by decide)
/-! ## Round-trip lemmas for the replay at the lines level -/

theorem winArr_succ (arr : List Line) (i k : Nat) :
    winArr arr i (k + 1) = arr.getD i [] :: winArr arr (i + 1) k := by
  simp only [winArr, List.range_succ_eq_map, List.map_cons, List.map_map,
    Nat.add_zero]
  refine congrArg₂ List.cons rfl ?_
  refine List.map_congr_left ?_
  intro a _
  simp only [Function.comp_apply, Nat.succ_eq_add_one]
  congr 1
  omega

theorem winArr_length (arr : List Line) (i k : Nat) :
    (winArr arr i k).length = k := by
  simp [winArr]

theorem winArr_self (arr : List Line) : winArr arr 0 arr.length = arr := by
  refine List.ext_getElem (by simp [winArr]) ?_
  intro i h1 h2
  simp only [winArr, List.getElem_map, List.getElem_range, Nat.zero_add]
  exact List.getD_eq_getElem arr [] h2

theorem insLoop_closed (arr : List Line) (k : Nat) :
    ∀ (emptyB : Bool) (i : Nat) (lnum : Int) (L : List Line),
      0 ≤ lnum → lnum.toNat ≤ L.length → (emptyB = false ∨ 1 ≤ lnum) →
      insLoop emptyB arr i k lnum L =
        L.take lnum.toNat ++ winArr arr i k ++ L.drop lnum.toNat := by
  induction k with
  | zero =>
    intro emptyB i lnum L h0 hlen hp
    simp [insLoop, winArr, List.take_append_drop]
  | succ k ih =>
    intro emptyB i lnum L h0 hlen hp
    unfold insLoop
    have hcond : (emptyB && lnum == 0) = false := by
      rcases hp with h | h
      · simp [h]
      · have : lnum ≠ 0 := by omega
        simp [this]
    simp only [hcond, Bool.false_eq_true, if_false]
    have h1 : (0 : Int) ≤ lnum + 1 := by omega
    have h2 : (lnum + 1).toNat ≤ (mlAppend L lnum (arr.getD i [])).length := by
      simp only [mlAppend, List.length_append, List.length_take,
        List.length_drop, List.length_cons]
      omega
    have h3 : (emptyB = false ∨ 1 ≤ lnum + 1) := Or.inr (by omega)
    rw [ih emptyB (i + 1) (lnum + 1) _ h1 h2 h3]
    have htn : (lnum + 1).toNat = lnum.toNat + 1 := by omega
    have hlen1 : (L.take lnum.toNat ++ [arr.getD i []]).length = lnum.toNat + 1
        := by simp [List.length_take]; omega
    rw [winArr_succ, htn]
    simp only [mlAppend]
    rw [List.take_left' hlen1, List.drop_left' hlen1]
    simp

theorem insLoop_empty (arr : List Line) (k : Nat) (hk : 1 ≤ k) :
    insLoop true arr 0 k 0 [[]] = winArr arr 0 k := by
  cases k with
  | zero => omega
  | succ k =>
    unfold insLoop
    simp only [show ((true && (0 : Int) == 0)) = true from rfl, if_true]
    have hrepl : mlReplace [[]] 1 (arr.getD 0 []) = [arr.getD 0 []] := rfl
    rw [hrepl, insLoop_closed arr k true (0 + 1) ((0 : Int) + 1)
      [arr.getD 0 []] (by omega) (by simp) (Or.inr (by omega))]
    rw [winArr_succ]
    simp
theorem delLoop_closed (k : Nat) :
    ∀ (L : List Line) (t : Nat), t + k ≤ L.length → k < L.length →
      delLoop L k ((t : Int) + k) =
        ((L.drop t).take k, L.take t ++ L.drop (t + k), false) := by
  induction k with
  | zero =>
    intro L t h1 h2
    simp [delLoop, List.take_append_drop]
  | succ k ih =>
    intro L t h1 h2
    unfold delLoop
    push_cast
    have hcap : mlGet L ((t : Int) + ((k : Int) + 1)) = L.getD (t + k) [] := by
      unfold mlGet
      rw [if_pos (by constructor <;> omega)]
      have e1 : (((t : Int) + ((k : Int) + 1)).toNat - 1) = t + k := by omega
      rw [e1]
    have hemp : (L.length == 1) = false := by
      simp only [beq_eq_false_iff_ne, ne_eq]
      omega
    have hdel : mlDelete L ((t : Int) + ((k : Int) + 1)) =
        L.take (t + k) ++ L.drop (t + k + 1) := by
      unfold mlDelete
      rw [if_neg (by omega)]
      have e1 : (((t : Int) + ((k : Int) + 1)).toNat - 1) = t + k := by omega
      have e2 : ((t : Int) + ((k : Int) + 1)).toNat = t + k + 1 := by omega
      rw [e1, e2]
    have harg : ((t : Int) + ((k : Int) + 1)) - 1 = (t : Int) + k := by ring
    rw [hcap, hemp, hdel, harg]
    have hAlen : (L.take (t + k)).length = t + k := by
      simp [List.length_take]
      omega
    have h1' : t + k ≤ (L.take (t + k) ++ L.drop (t + k + 1)).length := by
      simp only [List.length_append, List.length_take, List.length_drop]
      omega
    have h2' : k < (L.take (t + k) ++ L.drop (t + k + 1)).length := by
      simp only [List.length_append, List.length_take, List.length_drop]
      omega
    rw [ih _ t h1' h2']
    have hdropt : (L.take (t + k) ++ L.drop (t + k + 1)).drop t =
        (L.drop t).take k ++ L.drop (t + k + 1) := by
      rw [List.drop_append_of_le_length (by rw [hAlen]; omega), List.drop_take]
      have e0 : t + k - t = k := by omega
      rw [e0]
    have hXlen : ((L.drop t).take k).length = k := by
      simp [List.length_take, List.length_drop]
      omega
    have hcapt : ((L.take (t + k) ++ L.drop (t + k + 1)).drop t).take k =
        (L.drop t).take k := by
      rw [hdropt]
      exact List.take_left' hXlen
    have hcap2 : (L.drop t).take (k + 1) =
        (L.drop t).take k ++ [L.getD (t + k) []] := by
      have hb : t + k < L.length := by omega
      have hb2 : k < (L.drop t).length := by
        simp only [List.length_drop]
        omega
      rw [List.take_succ, List.getElem?_eq_getElem hb2]
      simp only [List.getElem_drop, List.getD_eq_getElem L [] hb,
        Option.toList_some, List.append_cancel_left_eq, List.cons.injEq,
        and_true]
    have htaket : (L.take (t + k) ++ L.drop (t + k + 1)).take t = L.take t := by
      rw [List.take_append_of_le_length (by omega), List.take_take]
      congr 1
      omega
    have hdroptk : (L.take (t + k) ++ L.drop (t + k + 1)).drop (t + k) =
        L.drop (t + k + 1) :=
      List.drop_left' hAlen
    dsimp only
    have e3 : t + (k + 1) = t + k + 1 := by omega
    rw [hcapt, hcap2, htaket, hdroptk, e3]
    simp [hemp]

theorem delLoop_all :
    ∀ (L : List Line), 1 ≤ L.length →
      delLoop L L.length (L.length : Int) = (L, [[]], true) := by
  intro L
  induction L using List.reverseRecOn with
  | nil => intro h; simp at h
  | append_singleton M x ih =>
    intro h
    by_cases hM : M = []
    · subst hM
      show delLoop [x] 1 1 = ([x], [[]], true)
      simp [delLoop, mlGet, mlDelete]
    · have hlen : (M ++ [x]).length = M.length + 1 := by simp
      have hM1 : 1 ≤ M.length := by
        cases M with
        | nil => exact absurd rfl hM
        | cons a b => simp
      rw [hlen]
      unfold delLoop
      have hcap : mlGet (M ++ [x]) ((M.length : Int) + 1) = x := by
        unfold mlGet
        rw [if_pos (by simp only [List.length_append, List.length_cons,
          List.length_nil]; constructor <;> omega)]
        have e1 : (((M.length : Int) + 1).toNat - 1) = M.length := by omega
        rw [e1, List.getD_eq_getElem (M ++ [x]) []
          (show M.length < (M ++ [x]).length by simp)]
        simp
      have hemp : ((M ++ [x]).length == 1) = false := by
        simp only [beq_eq_false_iff_ne, ne_eq, hlen]
        omega
      have hdel : mlDelete (M ++ [x]) ((M.length : Int) + 1) = M := by
        unfold mlDelete
        rw [if_neg (by simp only [List.length_append, List.length_cons,
          List.length_nil]; omega)]
        have e1 : (((M.length : Int) + 1).toNat - 1) = M.length := by omega
        have e2 : ((M.length : Int) + 1).toNat = M.length + 1 := by omega
        rw [e1, e2]
        simp [List.take_left' rfl]
      have harg : ((M.length : Int) + 1) - 1 = (M.length : Int) := by ring
      have hpush : ((M.length + 1 : Nat) : Int) = (M.length : Int) + 1 := by
        push_cast
        ring
      rw [hpush, hcap, hemp, hdel, harg, ih hM1]
      simp [hemp]
/-- Characterization of one replay step in the regular case: the step
deletes lines `t+1 .. t+k` (leaving part of the buffer) and inserts the
entry's `s` saved lines in their place. -/
theorem uStepLines_eq_regular (uep : UEntry) (L : List Line) (t k sz : Nat)
    (ht : uep.ue_top = (t : Int)) (hs : uep.ue_size = (sz : Int))
    (hbot : (if uep.ue_bot = 0 then (L.length : Int) + 1 else uep.ue_bot) =
      (t : Int) + k + 1)
    (hk : t + k ≤ L.length) (hklt : k < L.length) :
    uStepLines uep L = some
      ({ uep with
         ue_size := (k : Int)
         ue_array := (L.drop t).take k
         ue_bot := (t : Int) + sz + 1 },
       L.take t ++ winArr uep.ue_array 0 sz ++ L.drop (t + k)) := by
  unfold uStepLines
  dsimp only
  rw [hbot]
  rw [if_neg (by rw [ht]; push_cast; omega)]
  have hold : (t : Int) + k + 1 - uep.ue_top - 1 = (k : Int) := by
    rw [ht]; ring
  rw [hold]
  have htn : ((k : Int)).toNat = k := by omega
  have hbot1 : (t : Int) + k + 1 - 1 = (t : Int) + k := by ring
  rw [htn, hbot1, delLoop_closed k L t hk hklt]
  have hDlen : t ≤ (L.take t ++ L.drop (t + k)).length := by
    simp only [List.length_append, List.length_take, List.length_drop]
    omega
  have hXlen : (L.take t).length = t := by
    simp only [List.length_take]
    omega
  have hins : (if uep.ue_size ≠ 0 then
      insLoop false uep.ue_array 0 uep.ue_size.toNat uep.ue_top
        (L.take t ++ L.drop (t + k))
      else L.take t ++ L.drop (t + k)) =
      L.take t ++ winArr uep.ue_array 0 sz ++ L.drop (t + k) := by
    by_cases hz : uep.ue_size = 0
    · have hsz : sz = 0 := by omega
      rw [if_neg (by simp [hz])]
      subst hsz
      simp [winArr]
    · rw [if_pos hz]
      have hsn : uep.ue_size.toNat = sz := by omega
      rw [hsn, ht, insLoop_closed uep.ue_array sz false 0 (t : Int) _
        (by omega) (by rw [Int.toNat_ofNat]; exact hDlen) (Or.inl rfl)]
      rw [Int.toNat_ofNat, List.take_left' hXlen, List.drop_left' hXlen]
  rw [hins, hs, ht]

/-- Characterization of one replay step in the whole-buffer case: the
step deletes every line (the buffer passes through the dummy empty line)
and replaces them with the entry's `s ≥ 1` saved lines. -/
theorem uStepLines_eq_empty (uep : UEntry) (L : List Line) (sz : Nat)
    (ht : uep.ue_top = 0) (hs : uep.ue_size = (sz : Int))
    (hbot : (if uep.ue_bot = 0 then (L.length : Int) + 1 else uep.ue_bot) =
      (L.length : Int) + 1)
    (hsz : 1 ≤ sz) (hL : 1 ≤ L.length) :
    uStepLines uep L = some
      ({ uep with
         ue_size := (L.length : Int)
         ue_array := L
         ue_bot := (sz : Int) + 1 },
       winArr uep.ue_array 0 sz) := by
  unfold uStepLines
  dsimp only
  rw [hbot]
  rw [if_neg (by rw [ht]; push_cast; omega)]
  have hold : (L.length : Int) + 1 - uep.ue_top - 1 = (L.length : Int) := by
    rw [ht]; ring
  rw [hold]
  have htn : ((L.length : Int)).toNat = L.length := by omega
  have hbot1 : (L.length : Int) + 1 - 1 = (L.length : Int) := by ring
  rw [htn, hbot1, delLoop_all L hL]
  have hins : (if uep.ue_size ≠ 0 then
      insLoop true uep.ue_array 0 uep.ue_size.toNat uep.ue_top [[]]
      else [[]]) = winArr uep.ue_array 0 sz := by
    rw [if_pos (by omega)]
    have hsn : uep.ue_size.toNat = sz := by omega
    rw [hsn, ht]
    exact insLoop_empty uep.ue_array sz hsz
  rw [hins, hs, ht]
  simp
/-- One replay step is reversible: a `stepOk` entry applies successfully,
and the swapped-out entry applied to the resulting lines restores the
original lines. -/
theorem uStepLines_roundtrip (uep : UEntry) (L : List Line) (h : stepOk uep L) :
    ∃ e1 L1, uStepLines uep L = some (e1, L1) ∧
      ∃ e2, uStepLines e1 L1 = some (e2, L) := by
  simp only [stepOk] at h
  obtain ⟨h0, h1, h2, h3, h4, h5⟩ := h
  obtain ⟨B, hB⟩ : ∃ B : Int,
      (if uep.ue_bot = 0 then ((L.length : Int)) + 1 else uep.ue_bot) = B :=
    ⟨_, rfl⟩
  rw [hB] at h1 h2 h5
  obtain ⟨t, ht⟩ : ∃ t : Nat, uep.ue_top = (t : Int) :=
    ⟨uep.ue_top.toNat, by omega⟩
  obtain ⟨s, hs⟩ : ∃ s : Nat, uep.ue_size = (s : Int) :=
    ⟨uep.ue_size.toNat, by omega⟩
  obtain ⟨k, hk⟩ : ∃ k : Nat, B - uep.ue_top - 1 = (k : Int) :=
    ⟨(B - uep.ue_top - 1).toNat, by omega⟩
  by_cases hdum : B - uep.ue_top - 1 = (L.length : Int)
  · have hsne : uep.ue_size ≠ 0 := fun hz => h5 ⟨hdum, hz⟩
    have hsz : 1 ≤ s := by omega
    have hstep1 := uStepLines_eq_empty uep L s (by omega) hs
      (by rw [hB]; omega) hsz (by omega)
    refine ⟨_, _, hstep1, ?_⟩
    have hlen1 : (winArr uep.ue_array 0 s).length = s := winArr_length _ _ _
    have hstep2 := uStepLines_eq_empty
      { uep with
        ue_size := (L.length : Int)
        ue_array := L
        ue_bot := (s : Int) + 1 }
      (winArr uep.ue_array 0 s) L.length
      (show uep.ue_top = 0 by omega) rfl
      (by
        show (if ((s : Int) + 1) = 0 then
            ((winArr uep.ue_array 0 s).length : Int) + 1
          else ((s : Int) + 1)) = ((winArr uep.ue_array 0 s).length : Int) + 1
        rw [if_neg (by omega), hlen1])
      (by omega) (by rw [hlen1]; exact hsz)
    have harr : ({ uep with
        ue_size := (L.length : Int)
        ue_array := L
        ue_bot := (s : Int) + 1 } : UEntry).ue_array = L := rfl
    have hfix : winArr ({ uep with
        ue_size := (L.length : Int)
        ue_array := L
        ue_bot := (s : Int) + 1 } : UEntry).ue_array 0 L.length = L := by
      rw [harr]
      exact winArr_self L
    rw [hstep2, hfix]
    exact ⟨_, rfl⟩
  · have hklt : k < L.length := by omega
    have hkle : t + k ≤ L.length := by omega
    have hstep1 := uStepLines_eq_regular uep L t k s ht hs
      (by rw [hB]; omega) hkle hklt
    refine ⟨_, _, hstep1, ?_⟩
    have hXlen : (L.take t).length = t := by
      simp only [List.length_take]
      omega
    have hL1len : (L.take t ++ winArr uep.ue_array 0 s ++
        L.drop (t + k)).length = t + s + (L.length - (t + k)) := by
      simp only [List.length_append, List.length_take, List.length_drop,
        winArr_length]
      omega
    have harrk : ((L.drop t).take k).length = k := by
      simp only [List.length_take, List.length_drop]
      omega
    have hstep2 := uStepLines_eq_regular
      { uep with
        ue_size := (k : Int)
        ue_array := (L.drop t).take k
        ue_bot := (t : Int) + s + 1 }
      (L.take t ++ winArr uep.ue_array 0 s ++ L.drop (t + k))
      t s k
      (show uep.ue_top = (t : Int) from ht) rfl
      (by
        show (if ((t : Int) + s + 1) = 0 then
            ((L.take t ++ winArr uep.ue_array 0 s ++
              L.drop (t + k)).length : Int) + 1
          else ((t : Int) + s + 1)) = (t : Int) + s + 1
        rw [if_neg (by omega)])
      (by rw [hL1len]; omega)
      (by rw [hL1len]; omega)
    have htake : (L.take t ++ winArr uep.ue_array 0 s ++
        L.drop (t + k)).take t = L.take t := by
      rw [List.take_append_of_le_length (by
        simp only [List.length_append, List.length_take, winArr_length]
        omega)]
      exact List.take_left' hXlen
    have hdropp : (L.take t ++ winArr uep.ue_array 0 s ++
        L.drop (t + k)).drop (t + s) = L.drop (t + k) :=
      List.drop_left' (by
        simp only [List.length_append, List.length_take, winArr_length]
        omega)
    have harrE : ({ uep with
        ue_size := (k : Int)
        ue_array := (L.drop t).take k
        ue_bot := (t : Int) + s + 1 } : UEntry).ue_array = (L.drop t).take k :=
      rfl
    have hwin : winArr ((L.drop t).take k) 0 k = (L.drop t).take k := by
      have hws := winArr_self ((L.drop t).take k)
      rwa [harrk] at hws
    have hd : (L.drop t).drop k = L.drop (t + k) := by
      rw [List.drop_drop]
    have hfin : L.take t ++ (L.drop t).take k ++ L.drop (t + k) = L := by
      rw [List.append_assoc, ← hd, List.take_append_drop, List.take_append_drop]
    rw [hstep2, htake, hdropp, harrE, hwin, hfin]
    exact ⟨_, rfl⟩
/-- The replay loop splits over appended entry lists. -/
theorem uApplyLines_append (xs ys : List UEntry) :
    ∀ (L : List Line) (cs : List UEntry) (L1 : List Line),
      uApplyLines xs L = some (cs, L1) →
      uApplyLines (xs ++ ys) L =
        (match uApplyLines ys L1 with
         | some r2 => some (cs ++ r2.1, r2.2)
         | none => none) := by
  induction xs with
  | nil =>
    intro L cs L1 h
    simp only [uApplyLines, Option.some.injEq, Prod.mk.injEq] at h
    obtain ⟨h1, h2⟩ := h
    subst h1
    subst h2
    simp only [List.nil_append]
    cases hys : uApplyLines ys L with
    | none => rfl
    | some r2 => simp
  | cons e rest ih =>
    intro L cs L1 h
    cases hstep : uStepLines e L with
    | none => simp [uApplyLines, hstep] at h
    | some r =>
      cases hrest : uApplyLines rest r.2 with
      | none => simp [uApplyLines, hstep, hrest] at h
      | some r2 =>
        simp only [uApplyLines, hstep, hrest, Option.some.injEq,
          Prod.mk.injEq] at h
        obtain ⟨h1, h2⟩ := h
        subst h1
        subst h2
        simp only [List.cons_append, uApplyLines, hstep, List.append_eq]
        rw [ih r.2 r2.1 r2.2 hrest]
        cases hys : uApplyLines ys r2.2 with
        | none => rfl
        | some r3 => simp

/-- A full replay is reversible: if every step of the entry list is
valid (`applyOkLines`), the replay succeeds and replaying the captured
entries in reverse order restores the original lines. -/
theorem uApplyLines_roundtrip (es : List UEntry) :
    ∀ (L : List Line), applyOkLines es L = true →
      ∃ cs L2, uApplyLines es L = some (cs, L2) ∧
        ∃ ds, uApplyLines cs.reverse L2 = some (ds, L) := by
  induction es with
  | nil =>
    intro L _
    exact ⟨[], L, rfl, [], rfl⟩
  | cons e rest ih =>
    intro L h
    simp only [applyOkLines, Bool.and_eq_true, decide_eq_true_eq] at h
    obtain ⟨hok, hrest⟩ := h
    obtain ⟨e1, L1, hstep1, e2, hstep2⟩ := uStepLines_roundtrip e L hok
    simp only [hstep1] at hrest
    obtain ⟨cs2, L2, happ, ds2, hback⟩ := ih L1 hrest
    refine ⟨e1 :: cs2, L2, ?_, ?_⟩
    · simp only [uApplyLines, hstep1, happ]
    · have hone : uApplyLines [e1] L1 = some ([e2], L) := by
        simp only [uApplyLines, hstep2]
      rw [List.reverse_cons]
      rw [uApplyLines_append cs2.reverse [e1] L2 ds2 L1 hback, hone]
      exact ⟨ds2 ++ [e2], rfl⟩
theorem uStepCursor_lines (c : Pos) (b : Bool) (uep : UEntry)
    (top o n : Int) (s : ULoopState) :
    (uStepCursor c b uep top o n s).lines = s.lines := by
  unfold uStepCursor
  dsimp only
  (repeat' split) <;> rfl

theorem uStepCursor_newlist (c : Pos) (b : Bool) (uep : UEntry)
    (top o n : Int) (s : ULoopState) :
    (uStepCursor c b uep top o n s).newlist = s.newlist := by
  unfold uStepCursor
  dsimp only
  (repeat' split) <;> rfl

theorem uStepMarks_newlist (top o n : Int) (s1 : ULoopState) :
    (uStepMarks top o n s1).newlist = s1.newlist := by
  unfold uStepMarks
  dsimp only
  split <;> rfl

/-- The cursor / mark / op bookkeeping of a full `u_undoredo` entry step
does not touch the lines: `uStep` succeeds exactly when `uStepLines`
does, produces the same lines, and prepends the same swapped entry. -/
theorem uStep_lines (c : Pos) (b : Bool) (uep : UEntry) (s : ULoopState) :
    (uStep c b uep s).map (fun s' => (s'.newlist, s'.lines)) =
      (uStepLines uep s.lines).map (fun pr => (pr.1 :: s.newlist, pr.2)) := by
  unfold uStep uStepLines
  dsimp only
  by_cases hC : uep.ue_top > (s.lines.length : Int) ∨
      uep.ue_top ≥
        (if uep.ue_bot = 0 then (s.lines.length : Int) + 1 else uep.ue_bot) ∨
      (if uep.ue_bot = 0 then (s.lines.length : Int) + 1 else uep.ue_bot) >
        (s.lines.length : Int) + 1
  · rw [if_pos hC, if_pos hC]
    rfl
  · rw [if_neg hC, if_neg hC]
    simp only [Option.map_some', uStepCursor_lines, uStepCursor_newlist,
      uStepMarks_newlist]

/-- The entry loop of `u_undoredo` computes the same lines and captures
the same (reversed) entry list as the lines-level replay. -/
theorem uLoop_lines (c : Pos) : ∀ (es : List UEntry) (s : ULoopState)
    (cs : List UEntry) (L2 : List Line),
    uApplyLines es s.lines = some (cs, L2) →
    (uLoop c es s).2 = true ∧ (uLoop c es s).1.lines = L2 ∧
      (uLoop c es s).1.newlist = cs.reverse ++ s.newlist := by
  intro es
  induction es with
  | nil =>
    intro s cs L2 h
    simp only [uApplyLines, Option.some.injEq, Prod.mk.injEq] at h
    obtain ⟨h1, h2⟩ := h
    subst h1
    subst h2
    exact ⟨rfl, rfl, by simp [uLoop]⟩
  | cons e rest ih =>
    intro s cs L2 h
    cases hstep : uStepLines e s.lines with
    | none => simp [uApplyLines, hstep] at h
    | some r =>
      cases hrest : uApplyLines rest r.2 with
      | none => simp [uApplyLines, hstep, hrest] at h
      | some r2 =>
        simp only [uApplyLines, hstep, hrest, Option.some.injEq,
          Prod.mk.injEq] at h
        obtain ⟨h1, h2⟩ := h
        subst h1
        subst h2
        have hproj := uStep_lines c rest.isEmpty e s
        rw [hstep] at hproj
        cases hu : uStep c rest.isEmpty e s with
        | none => rw [hu] at hproj; simp at hproj
        | some s1 =>
          rw [hu] at hproj
          simp only [Option.map_some', Option.some.injEq, Prod.mk.injEq]
            at hproj
          obtain ⟨hnl, hln⟩ := hproj
          have hrec := ih s1 r2.1 r2.2 (by rw [hln]; exact hrest)
          have hloop : uLoop c (e :: rest) s = uLoop c rest s1 := by
            simp [uLoop, hu]
          rw [hloop]
          refine ⟨hrec.1, hrec.2.1, ?_⟩
          rw [hrec.2.2, hnl]
          simp [List.reverse_cons, List.append_assoc]
/-- When the entry loop succeeds, `u_undoredo` installs the loop's
lines in the buffer, keeps `b_u_curhead` at the same address, and
replaces that header's entry list by the captured `newlist`. -/
theorem u_undoredo_ok (undo : Bool) (st : UTreeState) (ca : Nat)
    (n : UHeaderNode) (hca : st.b_u_curhead = some ca)
    (hn : heapGet st.heap ca = some n)
    (hres : (uLoop n.uh_cursor n.uh_entry (initLoopState st)).2 = true) :
    (u_undoredo undo st).lines =
      (uLoop n.uh_cursor n.uh_entry (initLoopState st)).1.lines ∧
    (u_undoredo undo st).b_u_curhead = some ca ∧
    (heapGet (u_undoredo undo st).heap ca).map UHeaderNode.uh_entry =
      some (uLoop n.uh_cursor n.uh_entry (initLoopState st)).1.newlist := by
  unfold u_undoredo
  simp only [hca, hn, hres, if_true]
  refine ⟨trivial, trivial, ?_⟩
  rw [heapGet_heapSet_self, hn]
  rfl
/-- C1 (amended): applying the pending header as an undo and then
re-applying it as a redo restores the `LineStore` contents byte for
byte, provided every entry step of the header is valid and reversible
(`applyOkLines`).  The cursor, named marks, Visual region and header
flags are NOT restored in general (see the counterexample). -/
theorem C1_lines_roundtrip (st : UTreeState) (ca : Nat) (n : UHeaderNode)
    (hca : st.b_u_curhead = some ca) (hn : heapGet st.heap ca = some n)
    (hok : applyOkLines n.uh_entry st.lines = true) :
    (u_undoredo false (u_undoredo true st)).lines = st.lines := by
  obtain ⟨cs, L2, happ1, ds, happ2⟩ :=
    uApplyLines_roundtrip n.uh_entry st.lines hok
  obtain ⟨hres1, hlines1, hnew1⟩ :=
    uLoop_lines n.uh_cursor n.uh_entry (initLoopState st) cs L2 happ1
  obtain ⟨hL1, hcur1, hent1⟩ := u_undoredo_ok true st ca n hca hn hres1
  cases hg : heapGet (u_undoredo true st).heap ca with
  | none => rw [hg] at hent1; exact absurd hent1 (by simp)
  | some n2 =>
    rw [hg] at hent1
    simp only [Option.map_some', Option.some.injEq] at hent1
    have happ2' : uApplyLines n2.uh_entry (u_undoredo true st).lines =
        some (ds, st.lines) := by
      rw [hent1, hnew1, hL1, hlines1]
      simpa [initLoopState] using happ2
    obtain ⟨hres2, hlines2, _⟩ :=
      uLoop_lines n2.uh_cursor n2.uh_entry
        (initLoopState (u_undoredo true st)) ds st.lines happ2'
    obtain ⟨hL2, _, _⟩ :=
      u_undoredo_ok false (u_undoredo true st) ca n2 hcur1 hg hres2
    rw [hL2, hlines2]

/-- C1 witness: the general lines round-trip applied to the concrete
scenario-A state (two-line buffer, single-line pending header). -/
theorem C1_lines_roundtrip_witness :
    stApplyA.b_u_curhead = some 0 ∧
    heapGet stApplyA.heap 0 = some hdrApplyA ∧
    applyOkLines hdrApplyA.uh_entry stApplyA.lines = true ∧
    (u_undoredo false (u_undoredo true stApplyA)).lines = stApplyA.lines :=
  ⟨by decide, by decide, by decide,
   C1_lines_roundtrip stApplyA 0 hdrApplyA (by decide) (by decide) (by decide)⟩

/-- C1 counterexample: at the concrete scenario-A state the undo+redo
pair restores the lines but NOT the cursor, the named marks, the Visual
region or the header flags; at the scenario-B state (whole-buffer
deletion entry) even the lines are not restored (a dummy empty line is
left behind). -/
theorem C1_counterexample :
    (u_undoredo false (u_undoredo true stApplyA)).lines = stApplyA.lines ∧
    (u_undoredo false (u_undoredo true stApplyA)).cursor ≠ stApplyA.cursor ∧
    (u_undoredo false (u_undoredo true stApplyA)).namedm ≠ stApplyA.namedm ∧
    (u_undoredo false (u_undoredo true stApplyA)).visual ≠ stApplyA.visual ∧
    (heapGet (u_undoredo false (u_undoredo true stApplyA)).heap 0).map
        UHeaderNode.uh_flags ≠
      (heapGet stApplyA.heap 0).map UHeaderNode.uh_flags ∧
    (u_undoredo false (u_undoredo true stApplyB)).lines ≠ stApplyB.lines := by
  decide
/-- Decoding the big-endian digits of `n` accumulates onto `acc`. -/
theorem getNc_beBytes (len : Nat) : ∀ (n acc : Nat) (bs : Bytes),
    getNc len (beBytes len n ++ bs) acc =
      some (acc * 2 ^ (8 * len) + n % 2 ^ (8 * len), bs) := by
  induction len with
  | zero =>
    intro n acc bs
    simp [getNc, beBytes, Nat.mod_one]
  | succ len ih =>
    intro n acc bs
    have hbe : beBytes (len + 1) n ++ bs =
        ((n / 2 ^ (8 * len)) % 256) :: (beBytes len n ++ bs) := rfl
    have hstep : getNc (len + 1)
        (((n / 2 ^ (8 * len)) % 256) :: (beBytes len n ++ bs)) acc =
        getNc len (beBytes len n ++ bs)
          (acc * 256 + ((n / 2 ^ (8 * len)) % 256) % 256) := rfl
    rw [hbe, hstep, ih]
    have hm : (n / 2 ^ (8 * len)) % 256 % 256 = (n / 2 ^ (8 * len)) % 256 :=
      Nat.mod_mod_of_dvd _ dvd_rfl
    have hp : 2 ^ (8 * (len + 1)) = 2 ^ (8 * len) * 256 := by
      rw [show 8 * (len + 1) = 8 * len + 8 from by ring, pow_add]
      norm_num
    rw [hm, hp, Nat.mod_mul]
    exact congrArg some (by
      rw [Prod.mk.injEq]
      exact ⟨by ring, rfl⟩)

/-- `get4c` reads back what `undo_write_bytes _ 4` wrote, for values in
the signed 32-bit range. -/
theorem get4c_undo_write_bytes (v : Int) (bs : Bytes)
    (h1 : -(2 ^ 31) ≤ v) (h2 : v < 2 ^ 31) :
    get4c (undo_write_bytes v 4 ++ bs) = (v, bs) := by
  unfold get4c undo_write_bytes
  rw [getNc_beBytes]
  dsimp only
  norm_num
  split <;> omega

/-- `get2c` reads back what `undo_write_bytes _ 2` wrote, for values
below `2 ^ 16`. -/
theorem get2c_undo_write_bytes (n : Nat) (bs : Bytes) (h : n < 2 ^ 16) :
    get2c (undo_write_bytes (n : Int) 2 ++ bs) = ((n : Int), bs) := by
  unfold get2c undo_write_bytes
  rw [getNc_beBytes]
  dsimp only
  norm_num
  omega

/-- `get8ctime` reads back what `undo_write_bytes _ 8` wrote, for
nonnegative values below `2 ^ 63`. -/
theorem get8ctime_undo_write_bytes (v : Int) (bs : Bytes)
    (h1 : 0 ≤ v) (h2 : v < 2 ^ 63) :
    get8ctime (undo_write_bytes v 8 ++ bs) = (v, bs) := by
  unfold get8ctime undo_write_bytes
  rw [getNc_beBytes]
  dsimp only
  norm_num
  split <;> omega
/-- C4: the invariant "`b_u_numhead` equals the number of distinct
headers reachable from `old_head`" is NOT re-established after an
undo-file read: `fileC4` passes every check `u_read_undo` performs
(magic, version, hash, line count, positive and distinct sequence
numbers, `num_head` consistent with the header count), yet after the
load `b_u_numhead = 2` while only one header is reachable from
`b_u_oldhead` — the reader never validates reachability. -/
theorem C4_numhead_reachability :
    u_read_undo_parse stBase.lines hashZero fileC4 ≠ none ∧
    stC4read.b_u_synced = true ∧
    stC4read.b_u_numhead = 2 ∧
    reachableCount stC4read = 1 := by
  decide

/-- C9: after loading `fileC4` into a buffer with `undolevels = 0`, a
new-header save succeeds but leaves `b_u_numhead = 2 > undolevels + 1`:
the trim loop stops as soon as `b_u_oldhead` runs out, so the corrupted
`numhead` installed by `u_read_undo` survives trimming. -/
theorem C9_trim_numhead :
    get_undolevel stC9read = 0 ∧
    (u_savecommon stC9read 0 2 0 false).1 = UResult.OK ∧
    ¬((u_savecommon stC9read 0 2 0 false).2.b_u_numhead ≤
        get_undolevel stC9read + 1) := by
  decide
/-- C3: whenever `u_read_undo` fails to load an undo file — bad start
magic, wrong version, hash mismatch, line-count mismatch, truncated
data, nonpositive or duplicate header seq — it returns with the
buffer's in-memory undo tree exactly as it was before the call (every
failing path is a `none` of the parse phase, and on `none` the state is
returned untouched); and for any file with correct magic and version, a
buffer-hash or line-count mismatch always causes the load to be
refused. -/
theorem C3_read_failure :
    (∀ (st : UTreeState) (hash : List Nat) (file : Bytes),
      u_read_undo_parse st.lines hash file = none →
      u_read_undo st hash file = st) ∧
    (∀ (curLines : List Line) (hash h32 : List Nat) (cnt : Int)
      (rest : Bytes), h32.length = UNDO_HASH_SIZE →
      0 ≤ cnt → cnt < 2 ^ 31 →
      (h32 ≠ hash ∨ cnt ≠ (curLines.length : Int)) →
      u_read_undo_parse curLines hash
        (UF_START_MAGIC ++ undo_write_bytes (UF_VERSION : Int) 2 ++ h32 ++
          undo_write_bytes cnt 4 ++ rest) = none) := by
  constructor
  · intro st hash file hfail
    unfold u_read_undo
    rw [hfail]
  · intro curLines hash h32 cnt rest hlen h0 hlt hmis
    have hF : UF_START_MAGIC ++ undo_write_bytes (UF_VERSION : Int) 2 ++ h32 ++
        undo_write_bytes cnt 4 ++ rest =
        UF_START_MAGIC ++ (undo_write_bytes (UF_VERSION : Int) 2 ++ (h32 ++
          (undo_write_bytes cnt 4 ++ rest))) := by
      simp [List.append_assoc]
    rw [hF]
    unfold u_read_undo_parse
    rw [List.take_left' rfl, if_neg (by simp), List.drop_left' rfl]
    rw [get2c_undo_write_bytes UF_VERSION _ (by norm_num [UF_VERSION])]
    dsimp only
    rw [if_neg (by simp)]
    unfold undo_read
    rw [if_pos (by simp only [List.length_append, hlen, UNDO_HASH_SIZE]; omega)]
    rw [List.take_left' (by rw [hlen]), List.drop_left' (by rw [hlen])]
    dsimp only
    rw [get4c_undo_write_bytes cnt rest (by omega) hlt]
    dsimp only
    rw [if_pos hmis]

/-- C3 witness: a three-byte junk file leaves the baseline state
untouched, and a well-formed prefix carrying a wrong hash is refused. -/
theorem C3_read_failure_witness :
    u_read_undo stBase hashZero [1, 2, 3] = stBase ∧
    u_read_undo_parse stBase.lines hashZero
      (UF_START_MAGIC ++ undo_write_bytes (UF_VERSION : Int) 2 ++
        List.replicate 32 1 ++ undo_write_bytes 1 4 ++ []) = none :=
  ⟨C3_read_failure.1 stBase hashZero [1, 2, 3] (by decide),
   C3_read_failure.2 stBase.lines hashZero (List.replicate 32 1) 1 []
     (by decide) (by decide) (by decide) (Or.inl (by decide))⟩

theorem beBytes_length (len n : Nat) : (beBytes len n).length = len := by
  induction len generalizing n with
  | zero => rfl
  | succ len ih => simp [beBytes, ih]

theorem undo_write_bytes_length (v : Int) (len : Nat) :
    (undo_write_bytes v len).length = len := by
  unfold undo_write_bytes
  exact beBytes_length _ _

theorem unserialize_pos_roundtrip (p : Pos) (bs : Bytes) (h : wfPos p) :
    unserialize_pos (serialize_pos p ++ bs) = (p, bs) := by
  obtain ⟨h1, h2, h3, h4, h5, h6⟩ := h
  unfold serialize_pos unserialize_pos
  simp only [List.append_assoc]
  rw [get4c_undo_write_bytes p.lnum _ (by omega) h2]
  dsimp only
  rw [get4c_undo_write_bytes p.col _ (by omega) h4]
  dsimp only
  rw [get4c_undo_write_bytes p.coladd _ (by omega) h6]
  dsimp only
  have e1 : max p.lnum 0 = p.lnum := by omega
  have e2 : max p.col 0 = p.col := by omega
  have e3 : max p.coladd 0 = p.coladd := by omega
  rw [e1, e2, e3]

theorem unserialize_visualinfo_roundtrip (v : VisualInfo) (bs : Bytes)
    (h : wfVisual v) :
    unserialize_visualinfo (serialize_visualinfo v ++ bs) = (v, bs) := by
  obtain ⟨h1, h2, ⟨h3, h4⟩, h5, h6⟩ := h
  unfold serialize_visualinfo unserialize_visualinfo
  simp only [List.append_assoc]
  rw [unserialize_pos_roundtrip v.vi_start _ h1]
  dsimp only
  rw [unserialize_pos_roundtrip v.vi_end _ h2]
  dsimp only
  rw [get4c_undo_write_bytes v.vi_mode _ h3 h4]
  dsimp only
  rw [get4c_undo_write_bytes v.vi_curswant _ h5 h6]

theorem readMarks_roundtrip (ps : List Pos) :
    ∀ (bs : Bytes), (∀ p ∈ ps, wfPos p) →
    readMarks ps.length ((ps.map serialize_pos).flatten ++ bs) = (ps, bs) := by
  induction ps with
  | nil => intro bs _; rfl
  | cons p rest ih =>
    intro bs h
    simp only [List.map_cons, List.flatten_cons, List.length_cons,
      List.append_assoc]
    unfold readMarks
    rw [unserialize_pos_roundtrip p _ (h p (by simp))]
    dsimp only
    rw [ih bs (fun q hq => h q (by simp [hq]))]


theorem readUepLines_roundtrip (ls : List Line) :
    ∀ (bs : Bytes), (∀ l ∈ ls, (l.length : Int) < 2 ^ 31) →
    readUepLines ls.length
      (((ls.map (fun l => undo_write_bytes (l.length : Int) 4 ++ l)).flatten)
        ++ bs) = some (ls, bs) := by
  induction ls with
  | nil => intro bs _; rfl
  | cons l rest ih =>
    intro bs h
    simp only [List.map_cons, List.flatten_cons, List.length_cons,
      List.append_assoc]
    unfold readUepLines
    rw [get4c_undo_write_bytes (l.length : Int) _ (by omega) (h l (by simp))]
    dsimp only
    rw [if_neg (by omega)]
    have hread : undo_read_string ((l.length : Int)).toNat (l ++
        ((rest.map (fun x => undo_write_bytes (x.length : Int) 4 ++ x)).flatten
          ++ bs)) = some (l, (rest.map (fun x =>
            undo_write_bytes (x.length : Int) 4 ++ x)).flatten ++ bs) := by
      unfold undo_read_string undo_read
      rw [if_pos (by simp [Int.toNat_ofNat])]
      rw [Int.toNat_ofNat, List.take_left' rfl, List.drop_left' rfl]
    rw [hread]
    dsimp only
    rw [ih bs (fun x hx => h x (by simp [hx]))]

theorem range_map_getD (ls : List Line) :
    (List.range ls.length).map (fun i => ls.getD i []) = ls := by
  refine List.ext_getElem (by simp) ?_
  intro i h1 h2
  simp only [List.getElem_map, List.getElem_range]
  exact List.getD_eq_getElem ls [] h2

theorem unserialize_uep_roundtrip (u : UEntry) (bs : Bytes) (h : wfUep u) :
    unserialize_uep (serialize_uep u ++ bs) =
      some ({ u with ue_id := 0 }, bs) := by
  obtain ⟨⟨h1, h2⟩, ⟨h3, h4⟩, ⟨h5, h6⟩, h7, h8, h9, h10⟩ := h
  unfold serialize_uep unserialize_uep
  simp only [List.append_assoc]
  rw [get4c_undo_write_bytes u.ue_top _ h1 h2]
  dsimp only
  rw [get4c_undo_write_bytes u.ue_bot _ h3 h4]
  dsimp only
  rw [get4c_undo_write_bytes u.ue_lcount _ h5 h6]
  dsimp only
  rw [get4c_undo_write_bytes u.ue_size _ (by omega) h8]
  dsimp only
  have hmap : (List.range u.ue_size.toNat).map (fun i =>
      undo_write_bytes ((u.ue_array.getD i []).length : Int) 4 ++
        u.ue_array.getD i []) =
      u.ue_array.map (fun l => undo_write_bytes (l.length : Int) 4 ++ l) := by
    rw [h9]
    conv_rhs => rw [← range_map_getD u.ue_array]
    rw [List.map_map]
    rfl
  rw [hmap, h9]
  rw [readUepLines_roundtrip u.ue_array bs h10]


theorem readMarks_roundtrip2 (k : Nat) (ps : List Pos) (bs : Bytes)
    (hk : ps.length = k) (h : ∀ p ∈ ps, wfPos p) :
    readMarks k ((ps.map serialize_pos).flatten ++ bs) = (ps, bs) := by
  subst hk
  exact readMarks_roundtrip ps bs h

theorem uhpOptloop_emit (save_nr : Int) (bs : Bytes) (fuel : Nat)
    (hfuel : 2 ≤ fuel) (h1 : wfI32 save_nr) :
    uhpOptloop fuel 0 (4 :: (UHP_SAVE_NR :: (undo_write_bytes save_nr 4 ++
      (0 :: bs)))) = some (save_nr, bs) := by
  obtain ⟨ha, hb⟩ := h1
  match fuel, hfuel with
  | fuel + 2, _ =>
    unfold uhpOptloop
    simp only [List.append_assoc, List.cons_append, List.nil_append]
    rw [show undo_read_byte (4 :: (UHP_SAVE_NR :: (undo_write_bytes save_nr 4
      ++ (0 :: bs)))) = (4, UHP_SAVE_NR :: (undo_write_bytes save_nr 4 ++
        (0 :: bs))) from rfl]
    dsimp only
    rw [if_neg (by norm_num), if_neg (by norm_num)]
    rw [show undo_read_byte (UHP_SAVE_NR :: (undo_write_bytes save_nr 4 ++
      (0 :: bs))) = (((UHP_SAVE_NR : Nat) : Int), undo_write_bytes save_nr 4 ++
        (0 :: bs)) from rfl]
    dsimp only
    rw [if_pos (by norm_num [UHP_SAVE_NR])]
    rw [get4c_undo_write_bytes save_nr _ ha hb]
    dsimp only
    unfold uhpOptloop
    rw [show undo_read_byte (0 :: bs) = (0, bs) from rfl]
    dsimp only
    rw [if_neg (by norm_num), if_pos rfl]


theorem uepLoop_emit (ueps : List UEntry) :
    ∀ (fuel : Nat) (acc : List UEntry) (bs : Bytes),
    ueps.length < fuel → (∀ u ∈ ueps, wfUep u) →
    uepLoop fuel acc
      ((ueps.map (fun uep => undo_write_bytes (UF_ENTRY_MAGIC : Int) 2 ++
        serialize_uep uep)).flatten ++
        (undo_write_bytes (UF_ENTRY_END_MAGIC : Int) 2 ++ bs)) =
      some (acc ++ ueps.map (fun u => { u with ue_id := 0 }),
        ((UF_ENTRY_END_MAGIC : Nat) : Int), bs) := by
  induction ueps with
  | nil =>
    intro fuel acc bs hfuel _
    cases fuel with
    | zero => simp at hfuel
    | succ fuel =>
      unfold uepLoop
      simp only [List.map_nil, List.flatten_nil, List.nil_append]
      rw [get2c_undo_write_bytes UF_ENTRY_END_MAGIC bs
        (by norm_num [UF_ENTRY_END_MAGIC])]
      dsimp only
      rw [if_neg (by norm_num [UF_ENTRY_END_MAGIC, UF_ENTRY_MAGIC])]
      simp
  | cons u rest ih =>
    intro fuel acc bs hfuel h
    cases fuel with
    | zero => simp at hfuel
    | succ fuel =>
      unfold uepLoop
      simp only [List.map_cons, List.flatten_cons,
        List.append_assoc]
      rw [get2c_undo_write_bytes UF_ENTRY_MAGIC _
        (by norm_num [UF_ENTRY_MAGIC])]
      dsimp only
      rw [if_pos rfl]
      rw [unserialize_uep_roundtrip u _ (h u (by simp))]
      dsimp only
      rw [show (acc ++ ({ u with ue_id := 0 } ::
          List.map (fun v => ({ v with ue_id := 0 } : UEntry)) rest)) =
          ((acc ++ [{ u with ue_id := 0 }]) ++
            List.map (fun v => ({ v with ue_id := 0 } : UEntry)) rest) from by
        simp]
      exact ih fuel (acc ++ [{ u with ue_id := 0 }]) bs
        (by simp only [List.length_cons] at hfuel; omega)
        (fun x hx => h x (by simp [hx]))

theorem extmarkLoop_emit (exts : List ExtmarkUndoObject) :
    ∀ (fuel : Nat) (acc : List ExtmarkUndoObject) (bs : Bytes),
    (exts.filter extmarkKeep).length < fuel → (∀ e ∈ exts, wfExtmark e) →
    extmarkLoop fuel acc
      ((exts.map serialize_extmark).flatten ++
        (undo_write_bytes (UF_ENTRY_END_MAGIC : Int) 2 ++ bs)) =
      some (acc ++ exts.filter extmarkKeep,
        ((UF_ENTRY_END_MAGIC : Nat) : Int), bs) := by
  induction exts with
  | nil =>
    intro fuel acc bs hfuel _
    cases fuel with
    | zero => simp at hfuel
    | succ fuel =>
      unfold extmarkLoop
      simp only [List.map_nil, List.flatten_nil, List.nil_append]
      rw [get2c_undo_write_bytes UF_ENTRY_END_MAGIC bs
        (by norm_num [UF_ENTRY_END_MAGIC])]
      dsimp only
      rw [if_neg (by norm_num [UF_ENTRY_END_MAGIC, UF_ENTRY_MAGIC])]
      simp [List.filter]
  | cons e rest ih =>
    intro fuel acc bs hfuel h
    cases fuel with
    | zero => simp at hfuel
    | succ fuel =>
      cases e with
      | savePos p =>
        have hskip : serialize_extmark (.savePos p) = [] := rfl
        have hfil : List.filter extmarkKeep
            (ExtmarkUndoObject.savePos p :: rest) =
            List.filter extmarkKeep rest := by
          simp [List.filter, extmarkKeep]
        simp only [List.map_cons, hskip, List.flatten_cons,
          List.nil_append, hfil]
        rw [ih (fuel + 1) acc bs
          (by rw [hfil] at hfuel; omega)
          (fun x hx => h x (by simp [hx]))]
      | splice p =>
        have hlen : p.length = ExtmarkSplice_size := h (.splice p) (by simp)
        unfold extmarkLoop
        simp only [List.map_cons, serialize_extmark,     List.flatten_cons, List.append_assoc]
        rw [get2c_undo_write_bytes UF_ENTRY_MAGIC _
          (by norm_num [UF_ENTRY_MAGIC])]
        dsimp only
        rw [if_pos rfl]
        unfold unserialize_extmark
        rw [get4c_undo_write_bytes ((kExtmarkSplice : Nat) : Int) _
          (by norm_num [kExtmarkSplice]) (by norm_num [kExtmarkSplice])]
        dsimp only
        rw [if_pos rfl]
        unfold undo_read
        rw [if_pos (by simp [hlen])]
        rw [List.take_left' hlen, List.drop_left' hlen]
        dsimp only
        rw [show List.filter extmarkKeep (ExtmarkUndoObject.splice p :: rest) =
            ExtmarkUndoObject.splice p :: List.filter extmarkKeep rest from by
          simp [List.filter, extmarkKeep]]
        rw [show acc ++ (ExtmarkUndoObject.splice p ::
            List.filter extmarkKeep rest) =
            (acc ++ [ExtmarkUndoObject.splice p]) ++
              List.filter extmarkKeep rest from by simp]
        exact ih fuel (acc ++ [.splice p]) bs
          (by
            rw [show List.filter extmarkKeep
              (ExtmarkUndoObject.splice p :: rest) =
              ExtmarkUndoObject.splice p :: List.filter extmarkKeep rest from
              by simp [List.filter, extmarkKeep]] at hfuel
            simp only [List.length_cons] at hfuel
            omega)
          (fun x hx => h x (by simp [hx]))
      | move p =>
        have hlen : p.length = ExtmarkMove_size := h (.move p) (by simp)
        unfold extmarkLoop
        simp only [List.map_cons, serialize_extmark,     List.flatten_cons, List.append_assoc]
        rw [get2c_undo_write_bytes UF_ENTRY_MAGIC _
          (by norm_num [UF_ENTRY_MAGIC])]
        dsimp only
        rw [if_pos rfl]
        unfold unserialize_extmark
        rw [get4c_undo_write_bytes ((kExtmarkMove : Nat) : Int) _
          (by norm_num [kExtmarkMove]) (by norm_num [kExtmarkMove])]
        dsimp only
        rw [if_neg (by norm_num [kExtmarkMove, kExtmarkSplice]), if_pos rfl]
        unfold undo_read
        rw [if_pos (by simp [hlen])]
        rw [List.take_left' hlen, List.drop_left' hlen]
        dsimp only
        rw [show List.filter extmarkKeep (ExtmarkUndoObject.move p :: rest) =
            ExtmarkUndoObject.move p :: List.filter extmarkKeep rest from by
          simp [List.filter, extmarkKeep]]
        rw [show acc ++ (ExtmarkUndoObject.move p ::
            List.filter extmarkKeep rest) =
            (acc ++ [ExtmarkUndoObject.move p]) ++
              List.filter extmarkKeep rest from by simp]
        exact ih fuel (acc ++ [.move p]) bs
          (by
            rw [show List.filter extmarkKeep
              (ExtmarkUndoObject.move p :: rest) =
              ExtmarkUndoObject.move p :: List.filter extmarkKeep rest from
              by simp [List.filter, extmarkKeep]] at hfuel
            simp only [List.length_cons] at hfuel
            omega)
          (fun x hx => h x (by simp [hx]))


theorem flatten_length_ge (k : Nat) : ∀ (L : List Bytes),
    (∀ x ∈ L, k ≤ x.length) → k * L.length ≤ L.flatten.length := by
  intro L
  induction L with
  | nil => intro _; simp
  | cons x rest ih =>
    intro h
    simp only [List.flatten_cons, List.length_append, List.length_cons,
      Nat.mul_succ]
    have h1 : k ≤ x.length := h x (by simp)
    have h2 := ih (fun y hy => h y (by simp [hy]))
    omega

theorem extflat_length_ge (exts : List ExtmarkUndoObject) :
    2 * (exts.filter extmarkKeep).length ≤
      (exts.map serialize_extmark).flatten.length := by
  induction exts with
  | nil => simp
  | cons e rest ih =>
    cases e with
    | savePos p =>
      simp only [List.map_cons, List.flatten_cons,
        show serialize_extmark (.savePos p) = [] from rfl, List.nil_append,
        List.filter, extmarkKeep]
      exact ih
    | splice p =>
      have hf : List.filter extmarkKeep (ExtmarkUndoObject.splice p :: rest) =
          ExtmarkUndoObject.splice p :: List.filter extmarkKeep rest := by
        simp [List.filter, extmarkKeep]
      simp only [List.map_cons, List.flatten_cons, hf, List.length_cons,
        List.length_append, serialize_extmark, undo_write_bytes_length]
      omega
    | move p =>
      have hf : List.filter extmarkKeep (ExtmarkUndoObject.move p :: rest) =
          ExtmarkUndoObject.move p :: List.filter extmarkKeep rest := by
        simp [List.filter, extmarkKeep]
      simp only [List.map_cons, List.flatten_cons, hf, List.length_cons,
        List.length_append, serialize_extmark, undo_write_bytes_length]
      omega

theorem uhpOptloop_emit2 (save_nr : Int) (bs : Bytes) (h1 : wfI32 save_nr) :
    uhpOptloop ((4 :: (UHP_SAVE_NR :: (undo_write_bytes save_nr 4 ++
        (0 :: bs)))).length + 1) 0
      (4 :: (UHP_SAVE_NR :: (undo_write_bytes save_nr 4 ++ (0 :: bs)))) =
      some (save_nr, bs) :=
  uhpOptloop_emit save_nr bs _ (by simp only [List.length_cons]; omega) h1

theorem uepLoop_emit2 (ueps : List UEntry) (bs : Bytes)
    (h : ∀ u ∈ ueps, wfUep u) :
    uepLoop (((ueps.map (fun uep =>
        undo_write_bytes (UF_ENTRY_MAGIC : Int) 2 ++
          serialize_uep uep)).flatten ++
        (undo_write_bytes (UF_ENTRY_END_MAGIC : Int) 2 ++ bs)).length + 1) []
      ((ueps.map (fun uep => undo_write_bytes (UF_ENTRY_MAGIC : Int) 2 ++
        serialize_uep uep)).flatten ++
        (undo_write_bytes (UF_ENTRY_END_MAGIC : Int) 2 ++ bs)) =
      some (ueps.map (fun u => { u with ue_id := 0 }),
        ((UF_ENTRY_END_MAGIC : Nat) : Int), bs) := by
  have hlm : (ueps.map (fun uep => undo_write_bytes (UF_ENTRY_MAGIC : Int) 2
      ++ serialize_uep uep)).length = ueps.length := List.length_map _ _
  have hge : 2 * (ueps.map (fun uep =>
      undo_write_bytes (UF_ENTRY_MAGIC : Int) 2 ++
        serialize_uep uep)).length ≤ ((ueps.map (fun uep =>
      undo_write_bytes (UF_ENTRY_MAGIC : Int) 2 ++
        serialize_uep uep)).flatten).length :=
    flatten_length_ge 2 _ (by
      intro x hx
      obtain ⟨u, _, rfl⟩ := List.mem_map.mp hx
      show 2 ≤ (undo_write_bytes (UF_ENTRY_MAGIC : Int) 2 ++
        serialize_uep u).length
      simp only [List.length_append, undo_write_bytes_length]
      omega)
  have := uepLoop_emit ueps (((ueps.map (fun uep =>
      undo_write_bytes (UF_ENTRY_MAGIC : Int) 2 ++
        serialize_uep uep)).flatten ++
      (undo_write_bytes (UF_ENTRY_END_MAGIC : Int) 2 ++ bs)).length + 1)
    [] bs (by
      simp only [List.length_append, undo_write_bytes_length]
      omega) h
  simpa using this

theorem extmarkLoop_emit2 (exts : List ExtmarkUndoObject) (bs : Bytes)
    (h : ∀ e ∈ exts, wfExtmark e) :
    extmarkLoop (((exts.map serialize_extmark).flatten ++
        (undo_write_bytes (UF_ENTRY_END_MAGIC : Int) 2 ++ bs)).length + 1) []
      ((exts.map serialize_extmark).flatten ++
        (undo_write_bytes (UF_ENTRY_END_MAGIC : Int) 2 ++ bs)) =
      some (exts.filter extmarkKeep,
        ((UF_ENTRY_END_MAGIC : Nat) : Int), bs) := by
  have hge := extflat_length_ge exts
  have := extmarkLoop_emit exts (((exts.map serialize_extmark).flatten ++
      (undo_write_bytes (UF_ENTRY_END_MAGIC : Int) 2 ++ bs)).length + 1)
    [] bs (by
      simp only [List.length_append, undo_write_bytes_length]
      omega) h
  simpa using this

theorem C2_uhp_roundtrip (heap : List (Nat × UHeaderNode)) (n : UHeaderNode)
    (rest : Bytes) (hwf : wfUhp n)
    (hl1 : wfI32 (linkSeq heap n.uh_next))
    (hl2 : wfI32 (linkSeq heap n.uh_prev))
    (hl3 : wfI32 (linkSeq heap n.uh_alt_next))
    (hl4 : wfI32 (linkSeq heap n.uh_alt_prev)) :
    serialize_uhp heap n =
      undo_write_bytes (UF_HEADER_MAGIC : Int) 2 ++
        (serialize_uhp heap n).drop 2 ∧
    unserialize_uhp ((serialize_uhp heap n).drop 2 ++ rest) =
      some ({ next_seq := linkSeq heap n.uh_next
              prev_seq := linkSeq heap n.uh_prev
              alt_next_seq := linkSeq heap n.uh_alt_next
              alt_prev_seq := linkSeq heap n.uh_alt_prev
              node := uhpNorm n }, rest) := by
  obtain ⟨hs1, hs2, hcur, ⟨hv1, hv2⟩, hflags, hmarks, hvis, ht1, ht2,
    ⟨hsn1, hsn2⟩, hueps, hexts⟩ := hwf
  have hbody : (serialize_uhp heap n).drop 2 =
      put_header_ptr heap n.uh_next ++ (put_header_ptr heap n.uh_prev ++
      (put_header_ptr heap n.uh_alt_next ++
      (put_header_ptr heap n.uh_alt_prev ++
      (undo_write_bytes n.uh_seq 4 ++ (serialize_pos n.uh_cursor ++
      (undo_write_bytes n.uh_cursor_vcol 4 ++
      (undo_write_bytes (n.uh_flags : Int) 2 ++
      ((((List.range NMARKS).map (fun i =>
        serialize_pos (n.uh_namedm.getD i posZero))).flatten) ++
      (serialize_visualinfo n.uh_visual ++
      (undo_write_bytes n.uh_time 8 ++
      (4 :: (UHP_SAVE_NR :: (undo_write_bytes n.uh_save_nr 4 ++
      (0 :: (((n.uh_entry.map (fun uep =>
        undo_write_bytes (UF_ENTRY_MAGIC : Int) 2 ++
          serialize_uep uep)).flatten) ++
      (undo_write_bytes (UF_ENTRY_END_MAGIC : Int) 2 ++
      (((n.uh_extmark.map serialize_extmark).flatten) ++
      undo_write_bytes (UF_ENTRY_END_MAGIC : Int) 2))))))))))))))))) := by
    unfold serialize_uhp
    simp only [List.append_assoc, List.cons_append, List.nil_append]
    rw [List.drop_left' (undo_write_bytes_length _ _)]
  constructor
  · rw [hbody]
    unfold serialize_uhp
    simp only [List.append_assoc, List.cons_append, List.nil_append]
  · rw [hbody]
    unfold unserialize_uhp put_header_ptr
    simp only [List.append_assoc, List.cons_append, List.nil_append]
    rw [get4c_undo_write_bytes _ _ hl1.1 hl1.2]
    dsimp only
    rw [get4c_undo_write_bytes _ _ hl2.1 hl2.2]
    dsimp only
    rw [get4c_undo_write_bytes _ _ hl3.1 hl3.2]
    dsimp only
    rw [get4c_undo_write_bytes _ _ hl4.1 hl4.2]
    dsimp only
    rw [get4c_undo_write_bytes n.uh_seq _ (by omega) hs2]
    dsimp only
    rw [if_neg (by omega)]
    rw [unserialize_pos_roundtrip n.uh_cursor _ hcur]
    dsimp only
    rw [get4c_undo_write_bytes n.uh_cursor_vcol _ hv1 hv2]
    dsimp only
    rw [get2c_undo_write_bytes n.uh_flags _ hflags]
    dsimp only
    have hps : ((List.range NMARKS).map (fun i =>
        n.uh_namedm.getD i posZero)).length = NMARKS := by simp
    rw [show (((List.range NMARKS).map (fun i =>
        serialize_pos (n.uh_namedm.getD i posZero))).flatten) =
        ((((List.range NMARKS).map (fun i =>
          n.uh_namedm.getD i posZero)).map serialize_pos).flatten) from by
      rw [List.map_map]
      rfl]
    rw [readMarks_roundtrip2 NMARKS ((List.range NMARKS).map (fun i =>
        n.uh_namedm.getD i posZero)) _ (by simp) (by
      intro p hp
      simp only [List.mem_map, List.mem_range] at hp
      obtain ⟨i, hi, rfl⟩ := hp
      exact hmarks i hi)]
    dsimp only
    rw [unserialize_visualinfo_roundtrip n.uh_visual _ hvis]
    dsimp only
    rw [get8ctime_undo_write_bytes n.uh_time _ ht1 ht2]
    dsimp only
    rw [uhpOptloop_emit2 n.uh_save_nr _ ⟨hsn1, hsn2⟩]
    dsimp only
    rw [uepLoop_emit2 n.uh_entry _ hueps]
    dsimp only
    rw [if_neg (by simp)]
    rw [extmarkLoop_emit2 n.uh_extmark rest hexts]
    dsimp only
    rw [if_neg (by simp)]
    simp only [List.nil_append, Option.some.injEq, Prod.mk.injEq]
    refine ⟨?_, trivial⟩
    rw [UhpRead.mk.injEq]
    refine ⟨rfl, rfl, rfl, rfl, ?_⟩
    unfold uhpNorm
    rw [UHeaderNode.mk.injEq]
    simp [Int.toNat_ofNat]


/-- C2 counterexample: write the one-header tree `stC2` (whose header
carries an `ExtmarkSavePos` undo object), clear the tree and read the
file back: the load succeeds, the header's sequence number, entries,
cursor, marks, visual region, flags and time are all reproduced, but
the save-pos extmark blob is gone. -/
theorem C2_counterexample :
    stC2read.b_u_numhead = 1 ∧
    stC2read.b_u_oldhead = some 0 ∧
    heapGet stC2read.heap 0 = some { hdrC2 with uh_extmark := [] } ∧
    (heapGet stC2read.heap 0).map UHeaderNode.uh_extmark ≠
      (heapGet stC2.heap 0).map UHeaderNode.uh_extmark := by
  decide

/-- C2 witness: the header-record round trip applied to the concrete
header `hdrC2` in the arena of `stC2`. -/
theorem C2_uhp_roundtrip_witness :
    wfUhp hdrC2 ∧
    (serialize_uhp stC2.heap hdrC2 =
      undo_write_bytes (UF_HEADER_MAGIC : Int) 2 ++
        (serialize_uhp stC2.heap hdrC2).drop 2 ∧
    unserialize_uhp ((serialize_uhp stC2.heap hdrC2).drop 2 ++ []) =
      some ({ next_seq := linkSeq stC2.heap hdrC2.uh_next
              prev_seq := linkSeq stC2.heap hdrC2.uh_prev
              alt_next_seq := linkSeq stC2.heap hdrC2.uh_alt_next
              alt_prev_seq := linkSeq stC2.heap hdrC2.uh_alt_prev
              node := uhpNorm hdrC2 }, [])) :=
  ⟨by decide,
   C2_uhp_roundtrip stC2.heap hdrC2 [] (by decide) (by decide) (by decide)
     (by decide) (by decide)⟩

end NvimUndo
